import Mathlib

/-!
# Verification of the MongoDB inventory plugin (`mongo_inventory.py`)

This file gives a shallow embedding of `InventoryModule.parse` from
`src/golos1/mongo_plugins/plugins/inventory/mongo_inventory.py` and proves /
refutes the frozen specification claims about it.

Modelling choices (each mirrors the source unless noted):

* A MongoDB document value is `Value` (string, integer, or a nested
  document); a document (`Doc`) is an association list of field name to
  value, mirroring a Python `dict` (keys unique, insertion ordered).
* The inventory sink (Ansible's `InventoryData`) is an external collaborator;
  it is modelled from the spec's interface description (§6):
  `add_group` / `add_host` / `add_child` are idempotent "add if absent"
  operations on an additive graph, `set_variable` is last-write-wins, and the
  optional `port` argument of `add_host` is stored as per-host connection
  metadata.  The inventory graph `Inventory` stores these as Boolean / Option
  valued maps.
* `is_reserved_name` is an injected pure predicate `isReserved`.
* MongoDB connectivity is an injected pure function
  `fetch dbName collName query projection`, returning the list of documents
  the query yields, consumed forward-only.  Database and collection handles
  are identified by the names used to open them: a database handle is its
  name, a collection handle is the `(database name, collection name)` pair
  that `db.get_collection` was reached through.  The run records a trace of
  handle-opening and query-execution events so that caching behaviour is
  observable.
* Python exceptions (`KeyError` on a missing dict key, `TypeError` on
  `str + non-str` concatenation) abort the run; a result is `Res.ok` or
  `Res.err`, and the error case carries the inventory state at the moment of
  failure, since the Python exception leaves all prior in-place mutations of
  the inventory intact (nothing is rolled back).
-/

-- A MongoDB / BSON field value as far as this plugin can observe it:
-- a string, an integer, or a nested document.
mutual
inductive Value where
  | str : String → Value
  | int : Int → Value
  | vdoc : VDoc → Value
  deriving DecidableEq
inductive VDoc where
  | dnil : VDoc
  | dcons : String → Value → VDoc → VDoc
  deriving DecidableEq
end

/-- A host document returned by a query: a Python dict from field name to
value (keys unique, insertion ordered). -/
abbrev Doc := List (String × Value)

/-- `d[k]` lookup on a Python dict: first (unique) matching key. -/
def lookupD : Doc → String → Option Value
  | [], _ => none
  | (k', v) :: rest, k => if k' = k then some v else lookupD rest k

/-- The keys of a document are pairwise distinct (always true of a Python
dict; stated as a hypothesis where a theorem needs it). -/
def keysNodup (d : Doc) : Prop := (d.map Prod.fst).Nodup

/-- Association-list lookup used for the per-run handle caches
(`databases`, `collections` in `parse`). -/
def lookupA {α : Type} : List (String × α) → String → Option α
  | [], _ => none
  | (k', v) :: rest, k => if k' = k then some v else lookupA rest k

/-- Python dict assignment `m[k] = v`: replace in place if the key exists,
append otherwise. -/
def setA {α : Type} : List (String × α) → String → α → List (String × α)
  | [], k, v => [(k, v)]
  | (k', v') :: rest, k, v =>
      if k' = k then (k, v) :: rest else (k', v') :: setA rest k v

/-- A Python exception aborting the run: `KeyError` from a missing dict key,
or `TypeError` from concatenating a string with a non-string. -/
inductive Err where
  | keyError : String → Err
  | typeError : Err
  deriving DecidableEq

/-- Outcome of a stateful computation: success, or an uncaught exception
together with the state at the moment it was raised (in-place mutations made
before the exception are kept). -/
inductive Res (α : Type) where
  | ok : α → Res α
  | err : Err → α → Res α

/-- The state carried by a result, whether or not an exception was raised. -/
def Res.state {α : Type} : Res α → α
  | .ok a => a
  | .err _ a => a

/-- The exception carried by a result, if any. -/
def Res.errOf {α : Type} : Res α → Option Err
  | .ok _ => none
  | .err e _ => some e

/-- The inventory graph (the Ansible `InventoryData` sink, modelled from the
spec's interface: groups, group→child links, hosts, per-host connection-port
metadata, and per-host variables). -/
@[ext] structure Inventory where
  groups : String → Bool
  children : String → Value → Bool
  hosts : Value → Bool
  hostPort : Value → Option Value
  hostVars : Value → String → Option Value

/-- The inventory before the run: empty. -/
def emptyInv : Inventory :=
  { groups := fun _ => false
    children := fun _ _ => false
    hosts := fun _ => false
    hostPort := fun _ => none
    hostVars := fun _ _ => none }

/-- `inventory.add_group(g)`: create the group if absent (idempotent). -/
def addGroupI (inv : Inventory) (g : String) : Inventory :=
  { inv with groups := fun x => if x = g then true else inv.groups x }

/-- `inventory.add_child(group=g, child=h)`: idempotent link. -/
def addChildI (inv : Inventory) (g : String) (h : Value) : Inventory :=
  { inv with children := fun g' h' =>
      if g' = g ∧ h' = h then true else inv.children g' h' }

/-- `inventory.add_host(host=h, group=g[, port=p])`: register the host,
link it under the group, and record the port metadata when supplied. -/
def addHostI (inv : Inventory) (h : Value) (g : String) (port : Option Value) : Inventory :=
  { inv with
      hosts := fun x => if x = h then true else inv.hosts x
      children := fun g' h' => if g' = g ∧ h' = h then true else inv.children g' h'
      hostPort := match port with
        | none => inv.hostPort
        | some p => fun x => if x = h then some p else inv.hostPort x }

/-- `inventory_host.set_variable(key=k, value=v)`: last write wins. -/
def setVarI (inv : Inventory) (h : Value) (k : String) (v : Value) : Inventory :=
  { inv with hostVars := fun h' k' =>
      if h' = h ∧ k' = k then some v else inv.hostVars h' k' }

/-- One entry of the `query_groups` option. -/
structure GroupSpec where
  group_name : String
  db_name : String
  collection_name : String
  query : Doc
  incl : Option Doc
  deriving DecidableEq

/-- The plugin configuration (the recognized options of `DOCUMENTATION`).
`exclude_reserved` is `none` when the option is unset; `parse` then treats
it as `true`. -/
structure Config where
  connection_string : String
  exclude_reserved : Option Bool
  keyed_groups : Option (List String)
  query_groups : List GroupSpec

/-- The filter of the host-variable loop in `parse`:
`(not is_reserved_name(key) or not exclude_reserved) and key != "_id"`. -/
def keepVar (isReserved : String → Bool) (excl : Bool) (k : String) : Bool :=
  (!(isReserved k) || !excl) && !(k == "_id")

/-- The host-variable loop of `parse`:
`for key in host.keys(): if ...: inventory_host.set_variable(key, host[key])`. -/
def writeVars (isReserved : String → Bool) (excl : Bool) (ah : Value)
    (d : Doc) (inv : Inventory) : Inventory :=
  d.foldl (fun s kv =>
    if keepVar isReserved excl kv.1 then setVarI s ah kv.1 kv.2 else s) inv

/-- The keyed-group loop of `parse`: for each configured key present in the
host's variable snapshot, `group_key = key + ":" + host_vars[key]` (a Python
`TypeError` if the value is not a string), `add_group`, `add_child`. -/
def deriveKG (ah : Value) (hv : String → Option Value) :
    List String → Inventory → Res Inventory
  | [], inv => .ok inv
  | k :: rest, inv =>
      match hv k with
      | none => deriveKG ah hv rest inv
      | some (.str s) =>
          deriveKG ah hv rest (addChildI (addGroupI inv (k ++ ":" ++ s)) (k ++ ":" ++ s) ah)
      | some _ => .err .typeError inv

/-- The part of the document-processing body that follows `add_host` /
`get_host`: the host-variable loop, the `get_vars` snapshot, and (when the
`keyed_groups` option is set) the keyed-group loop. -/
def docCont (isReserved : String → Bool) (excl : Bool)
    (kgOpt : Option (List String)) (ah : Value) (d : Doc) (inv1 : Inventory) :
    Res Inventory :=
  let inv2 := writeVars isReserved excl ah d inv1
  match kgOpt with
  | none => .ok inv2
  | some ks => deriveKG ah (inv2.hostVars ah) ks inv2

/-- Processing of one document from the result stream (the body of the
`while host is not None` loop), acting on the inventory graph.
Mirrors the source order: the `"ansible_port" in host` test, then
`host["ansible_host"]` (a `KeyError` aborts before `host["port"]` is read,
since Python evaluates the keyword arguments of `add_host` left to right),
then `host["port"]` in the port branch, then the variable loop, then
`get_vars`, then the keyed-group loop. -/
def invDocStep (isReserved : String → Bool) (excl : Bool)
    (kgOpt : Option (List String)) (gname : String) (d : Doc) (inv : Inventory) :
    Res Inventory :=
  match lookupD d "ansible_port" with
  | some _ =>
      match lookupD d "ansible_host" with
      | none => .err (.keyError "ansible_host") inv
      | some ah =>
          match lookupD d "port" with
          | none => .err (.keyError "port") inv
          | some p => docCont isReserved excl kgOpt ah d (addHostI inv ah gname (some p))
  | none =>
      match lookupD d "ansible_host" with
      | none => .err (.keyError "ansible_host") inv
      | some ah => docCont isReserved excl kgOpt ah d (addHostI inv ah gname none)

/-- One step of the run as seen by the inventory graph: either
`add_group(group_name)` at the head of a query group, or the processing of
one returned document under that group. -/
inductive Step where
  | grp : String → Step
  | doc : String → Doc → Step

/-- Replay of the inventory-graph effects of a run: a fold of `Step`s,
aborting at the first uncaught exception. -/
def applyScript (isReserved : String → Bool) (excl : Bool)
    (kgOpt : Option (List String)) : List Step → Inventory → Res Inventory
  | [], inv => .ok inv
  | .grp g :: rest, inv => applyScript isReserved excl kgOpt rest (addGroupI inv g)
  | .doc g d :: rest, inv =>
      match invDocStep isReserved excl kgOpt g d inv with
      | .ok inv' => applyScript isReserved excl kgOpt rest inv'
      | .err e inv' => .err e inv'

/-- The externally observable side effects of the Query Executor during one
run: the database handles opened (`client.get_database`), the collection
handles opened (`db.get_collection`, recorded as the
`(database name, collection name)` the handle is bound to), and the queries
executed (`collection.find`, recorded as handle, filter, optional
projection). -/
structure Trace where
  dbOpens : List String
  collOpens : List (String × String)
  execs : List ((String × String) × Doc × Option Doc)
  deriving DecidableEq

/-- The whole state threaded through one `parse` run: the inventory graph,
the two per-run handle caches (`databases`, `collections` in the source),
and the side-effect trace. -/
structure St where
  inv : Inventory
  databases : List (String × String)
  collections : List (String × String × String)
  trace : Trace

/-- `databases[db_name]` resolution with the per-run cache:
open the handle only when the name is not cached.  A database handle is
identified by the name it was opened with. -/
def resolveDbC (dbs : List (String × String)) (name : String) :
    List (String × String) × String :=
  match lookupA dbs name with
  | some h => (dbs, h)
  | none => (setA dbs name name, name)

/-- `collections[collection_name]` resolution with the per-run cache: note
the cache is keyed by the collection name alone, and a freshly opened handle
is bound to the database handle `db` that happens to be current. -/
def resolveCollC (colls : List (String × String × String)) (db name : String) :
    List (String × String × String) × String × String :=
  match lookupA colls name with
  | some h => (colls, h)
  | none => (setA colls name (db, name), (db, name))

/-- The `while host is not None` loop over one query's result stream. -/
def runDocs (isReserved : String → Bool) (excl : Bool)
    (kgOpt : Option (List String)) (gname : String) :
    List Doc → St → Res St
  | [], st => .ok st
  | d :: rest, st =>
      match invDocStep isReserved excl kgOpt gname d st.inv with
      | .ok inv' => runDocs isReserved excl kgOpt gname rest { st with inv := inv' }
      | .err e inv' => .err e { st with inv := inv' }

/-- The `for group in query_groups` loop of `parse`: `add_group`, database
and collection handle resolution through the caches, `find`, then the
document loop. -/
def runGroups (fetch : String → String → Doc → Option Doc → List Doc)
    (isReserved : String → Bool) (excl : Bool) (kgOpt : Option (List String)) :
    List GroupSpec → St → Res St
  | [], st => .ok st
  | g :: rest, st =>
      let inv1 := addGroupI st.inv g.group_name
      let dbRes := resolveDbC st.databases g.db_name
      let dbOpens1 := if (lookupA st.databases g.db_name).isSome then
          st.trace.dbOpens else st.trace.dbOpens ++ [g.db_name]
      let collRes := resolveCollC st.collections dbRes.2 g.collection_name
      let collOpens1 := if (lookupA st.collections g.collection_name).isSome then
          st.trace.collOpens else st.trace.collOpens ++ [(dbRes.2, g.collection_name)]
      let handle := collRes.2
      let docs := fetch handle.1 handle.2 g.query g.incl
      let st1 : St :=
        { inv := inv1, databases := dbRes.1, collections := collRes.1
          trace := { dbOpens := dbOpens1, collOpens := collOpens1
                     execs := st.trace.execs ++ [(handle, g.query, g.incl)] } }
      match runDocs isReserved excl kgOpt g.group_name docs st1 with
      | .ok st2 => runGroups fetch isReserved excl kgOpt rest st2
      | .err e st2 => .err e st2

/-- The run state before any group is processed: the supplied inventory and
fresh (empty) caches and trace, as at the top of `parse`. -/
def initSt (inv0 : Inventory) : St :=
  { inv := inv0, databases := [], collections := []
    trace := { dbOpens := [], collOpens := [], execs := [] } }

/-- `InventoryModule.parse`: read the options (an unset `exclude_reserved`
becomes `True`), then process every configured query group in order against
the inventory `inv0` the framework supplies. -/
def parseRun (fetch : String → String → Doc → Option Doc → List Doc)
    (isReserved : String → Bool) (cfg : Config) (inv0 : Inventory) : Res St :=
  runGroups fetch isReserved (cfg.exclude_reserved.getD true) cfg.keyed_groups
    cfg.query_groups (initSt inv0)

/-- The sequence of inventory-graph steps a run performs, extracted from the
configuration and the query function alone (the handle caches influence only
which `(database, collection)` pair each `find` is executed against). -/
def scriptAux (fetch : String → String → Doc → Option Doc → List Doc) :
    List GroupSpec → List (String × String) → List (String × String × String) →
    List Step
  | [], _, _ => []
  | g :: rest, dbs, colls =>
      let dbRes := resolveDbC dbs g.db_name
      let collRes := resolveCollC colls dbRes.2 g.collection_name
      let docs := fetch collRes.2.1 collRes.2.2 g.query g.incl
      .grp g.group_name :: (docs.map (Step.doc g.group_name) ++
        scriptAux fetch rest dbRes.1 collRes.1)

/-- The script of a whole run. -/
def scriptOf (fetch : String → String → Doc → Option Doc → List Doc)
    (cfg : Config) : List Step :=
  scriptAux fetch cfg.query_groups [] []

/-- The inventory part of a run result. -/
def mapInv (r : Res St) : Res Inventory :=
  match r with
  | .ok st => .ok st.inv
  | .err e st => .err e st.inv

/-- Pointwise inclusion of inventory graphs on their additive components
(groups, links, hosts); variable and port writes are not monotone and are
tracked separately. -/
def invLE (A B : Inventory) : Prop :=
  (∀ g, A.groups g = true → B.groups g = true) ∧
  (∀ g h, A.children g h = true → B.children g h = true) ∧
  (∀ h, A.hosts h = true → B.hosts h = true)

/-- Every variable value visible for a keyed field is a string whose keyed
group already exists in `S` and already contains the host.  This is the
derivation-closure invariant of the keyed-group loop. -/
def DerOK (ks : List String) (S : Inventory)
    (vars : Value → String → Option Value) : Prop :=
  ∀ h k v, k ∈ ks → vars h k = some v →
    ∃ s, v = .str s ∧ S.groups (k ++ ":" ++ s) = true ∧
      S.children (k ++ ":" ++ s) h = true

/-- The handle caches and the open-trace agree: the opened names are exactly
the cached keys, in order, and no name is ever opened twice. -/
def cacheInv (st : St) : Prop :=
  st.trace.dbOpens = st.databases.map Prod.fst ∧
  st.trace.collOpens.map Prod.snd = st.collections.map Prod.fst ∧
  (st.databases.map Prod.fst).Nodup ∧ (st.collections.map Prod.fst).Nodup

theorem lookupA_none_not_mem {α : Type} {l : List (String × α)} {k : String}
    (h : lookupA l k = none) : k ∉ l.map Prod.fst := by
  induction l with
  | nil => simp
  | cons kv rest ih =>
      obtain ⟨k', v⟩ := kv
      by_cases hk : k' = k
      · simp [lookupA, hk] at h
      · simp only [lookupA, if_neg hk] at h
        simpa [Ne.symm hk] using ih h

theorem lookupA_isSome_mem {α : Type} {l : List (String × α)} {k : String}
    (h : (lookupA l k).isSome) : k ∈ l.map Prod.fst := by
  induction l with
  | nil => simp [lookupA] at h
  | cons kv rest ih =>
      obtain ⟨k', v⟩ := kv
      by_cases hk : k' = k
      · simp [hk]
      · simp only [lookupA, if_neg hk] at h
        simpa using Or.inr (ih h)

theorem setA_of_lookup_none {α : Type} {l : List (String × α)} {k : String}
    (h : lookupA l k = none) (v : α) : setA l k v = l ++ [(k, v)] := by
  induction l with
  | nil => rfl
  | cons kv rest ih =>
      obtain ⟨k', v'⟩ := kv
      by_cases hk : k' = k
      · simp [lookupA, hk] at h
      · simp only [lookupA, if_neg hk] at h
        simp [setA, if_neg hk, ih h]

theorem writeVars_cons (isReserved : String → Bool) (excl : Bool) (ah : Value)
    (k : String) (v : Value) (rest : Doc) (X : Inventory) :
    writeVars isReserved excl ah ((k, v) :: rest) X =
      writeVars isReserved excl ah rest
        (if keepVar isReserved excl k then setVarI X ah k v else X) := by
  simp only [writeVars, List.foldl]

theorem writeVars_groups (isReserved : String → Bool) (excl : Bool) (ah : Value)
    (d : Doc) (X : Inventory) :
    (writeVars isReserved excl ah d X).groups = X.groups := by
  induction d generalizing X with
  | nil => rfl
  | cons kv rest ih =>
      obtain ⟨k, v⟩ := kv
      rw [writeVars_cons]
      by_cases hk : keepVar isReserved excl k <;> simp [hk, ih, setVarI]

theorem writeVars_children (isReserved : String → Bool) (excl : Bool) (ah : Value)
    (d : Doc) (X : Inventory) :
    (writeVars isReserved excl ah d X).children = X.children := by
  induction d generalizing X with
  | nil => rfl
  | cons kv rest ih =>
      obtain ⟨k, v⟩ := kv
      rw [writeVars_cons]
      by_cases hk : keepVar isReserved excl k <;> simp [hk, ih, setVarI]

theorem writeVars_hosts (isReserved : String → Bool) (excl : Bool) (ah : Value)
    (d : Doc) (X : Inventory) :
    (writeVars isReserved excl ah d X).hosts = X.hosts := by
  induction d generalizing X with
  | nil => rfl
  | cons kv rest ih =>
      obtain ⟨k, v⟩ := kv
      rw [writeVars_cons]
      by_cases hk : keepVar isReserved excl k <;> simp [hk, ih, setVarI]

theorem writeVars_hostPort (isReserved : String → Bool) (excl : Bool) (ah : Value)
    (d : Doc) (X : Inventory) :
    (writeVars isReserved excl ah d X).hostPort = X.hostPort := by
  induction d generalizing X with
  | nil => rfl
  | cons kv rest ih =>
      obtain ⟨k, v⟩ := kv
      rw [writeVars_cons]
      by_cases hk : keepVar isReserved excl k <;> simp [hk, ih, setVarI]

theorem writeVars_vars_other (isReserved : String → Bool) (excl : Bool)
    (ah : Value) (d : Doc) (X : Inventory) (h : Value) (hne : h ≠ ah) (k : String) :
    (writeVars isReserved excl ah d X).hostVars h k = X.hostVars h k := by
  induction d generalizing X with
  | nil => rfl
  | cons kv rest ih =>
      obtain ⟨k0, v0⟩ := kv
      rw [writeVars_cons]
      by_cases hk : keepVar isReserved excl k0
      · simp only [if_pos hk]
        rw [ih]
        simp [setVarI, hne]
      · simp [hk, ih]

theorem lookupD_none_of_not_mem {d : Doc} {k : String}
    (h : k ∉ d.map Prod.fst) : lookupD d k = none := by
  induction d with
  | nil => rfl
  | cons kv rest ih =>
      obtain ⟨k0, v0⟩ := kv
      simp only [List.map, List.mem_cons] at h
      push_neg at h
      have hne : ¬(k0 = k) := fun hh => h.1 hh.symm
      simp [lookupD, hne, ih h.2]

theorem writeVars_vars_not_mem (isReserved : String → Bool) (excl : Bool)
    (ah : Value) (d : Doc) (k : String)
    (hk : k ∉ d.map Prod.fst) : ∀ (X : Inventory) (h : Value),
    (writeVars isReserved excl ah d X).hostVars h k = X.hostVars h k := by
  induction d with
  | nil => intro X h; rfl
  | cons kv rest ih =>
      obtain ⟨k0, v0⟩ := kv
      simp only [List.map, List.mem_cons] at hk
      push_neg at hk
      intro X h
      rw [writeVars_cons]
      by_cases hkeep : keepVar isReserved excl k0
      · simp only [if_pos hkeep]
        rw [ih hk.2]
        simp [setVarI, fun hh : k = k0 => hk.1 hh]
      · simp only [if_neg hkeep]
        exact ih hk.2 X h

theorem writeVars_vars_char (isReserved : String → Bool) (excl : Bool)
    (ah : Value) (d : Doc) (hnd : keysNodup d) : ∀ (X : Inventory) (k : String),
    (writeVars isReserved excl ah d X).hostVars ah k =
      if keepVar isReserved excl k ∧ (lookupD d k).isSome then lookupD d k
      else X.hostVars ah k := by
  induction d with
  | nil => intro X k; simp [writeVars, lookupD]
  | cons kv rest ih =>
      obtain ⟨k0, v0⟩ := kv
      have hnd' : keysNodup rest := by
        simpa [keysNodup] using (List.nodup_cons.mp hnd).2
      have hk0 : k0 ∉ rest.map Prod.fst := by
        simpa [keysNodup] using (List.nodup_cons.mp hnd).1
      intro X k
      rw [writeVars_cons]
      by_cases heq : k0 = k
      · subst heq
        simp only [lookupD, if_pos rfl, Option.isSome_some, and_true]
        by_cases hkeep : keepVar isReserved excl k0
        · simp only [if_pos hkeep]
          rw [writeVars_vars_not_mem _ _ _ _ _ hk0]
          simp [setVarI, hkeep]
        · simp only [if_neg hkeep]
          rw [ih hnd']
          simp [lookupD_none_of_not_mem hk0, hkeep]
      · simp only [lookupD, if_neg heq]
        have heq' : ¬(k = k0) := fun hh => heq hh.symm
        by_cases hkeep : keepVar isReserved excl k0
        · simp only [if_pos hkeep]
          rw [ih hnd']
          by_cases hc : keepVar isReserved excl k ∧ (lookupD rest k).isSome
          · simp [hc]
          · simp [hc, setVarI, heq']
        · simp only [if_neg hkeep]
          exact ih hnd' X k

theorem writeVars_vars_rel (isReserved : String → Bool) (excl : Bool)
    (ah : Value) (C : Value → String → Option Value) (d : Doc) :
    ∀ (A B : Inventory),
      (∀ h k, A.hostVars h k = (B.hostVars h k <|> C h k)) →
      ∀ h k, (writeVars isReserved excl ah d A).hostVars h k =
        ((writeVars isReserved excl ah d B).hostVars h k <|> C h k) := by
  induction d with
  | nil => intro A B hrel; simpa [writeVars] using hrel
  | cons kv rest ih =>
      obtain ⟨k0, v0⟩ := kv
      intro A B hrel h k
      rw [writeVars_cons, writeVars_cons]
      by_cases hkeep : keepVar isReserved excl k0
      · simp only [if_pos hkeep]
        refine ih _ _ ?_ h k
        intro h' k'
        by_cases hc : h' = ah ∧ k' = k0
        · simp [setVarI, hc]
        · simp only [setVarI, if_neg hc]
          exact hrel h' k'
      · simp only [if_neg hkeep]
        exact ih _ _ hrel h k

theorem deriveKG_state_vars (ah : Value) (hv : String → Option Value)
    (ks : List String) : ∀ (X : Inventory),
    (deriveKG ah hv ks X).state.hostVars = X.hostVars := by
  induction ks with
  | nil => intro X; rfl
  | cons k rest ih =>
      intro X
      match hval : hv k with
      | none => simp [deriveKG, hval, ih]
      | some (.str s) => simp [deriveKG, hval, ih, addChildI, addGroupI]
      | some (.int n) => simp [deriveKG, hval, Res.state]
      | some (.vdoc dv) => simp [deriveKG, hval, Res.state]

theorem deriveKG_state_hosts (ah : Value) (hv : String → Option Value)
    (ks : List String) : ∀ (X : Inventory),
    (deriveKG ah hv ks X).state.hosts = X.hosts := by
  induction ks with
  | nil => intro X; rfl
  | cons k rest ih =>
      intro X
      match hval : hv k with
      | none => simp [deriveKG, hval, ih]
      | some (.str s) => simp [deriveKG, hval, ih, addChildI, addGroupI]
      | some (.int n) => simp [deriveKG, hval, Res.state]
      | some (.vdoc dv) => simp [deriveKG, hval, Res.state]

theorem deriveKG_state_hostPort (ah : Value) (hv : String → Option Value)
    (ks : List String) : ∀ (X : Inventory),
    (deriveKG ah hv ks X).state.hostPort = X.hostPort := by
  induction ks with
  | nil => intro X; rfl
  | cons k rest ih =>
      intro X
      match hval : hv k with
      | none => simp [deriveKG, hval, ih]
      | some (.str s) => simp [deriveKG, hval, ih, addChildI, addGroupI]
      | some (.int n) => simp [deriveKG, hval, Res.state]
      | some (.vdoc dv) => simp [deriveKG, hval, Res.state]

theorem invLE_refl (X : Inventory) : invLE X X :=
  ⟨fun _ h => h, fun _ _ h => h, fun _ h => h⟩

theorem invLE_trans {A B C : Inventory} (h1 : invLE A B) (h2 : invLE B C) :
    invLE A C :=
  ⟨fun g h => h2.1 g (h1.1 g h),
   fun g x h => h2.2.1 g x (h1.2.1 g x h),
   fun x h => h2.2.2 x (h1.2.2 x h)⟩

theorem invLE_addGroupI (X : Inventory) (g : String) : invLE X (addGroupI X g) := by
  refine ⟨fun g' h => ?_, fun g' x h => h, fun x h => h⟩
  simp only [addGroupI]
  split <;> simp_all

theorem invLE_addChildI (X : Inventory) (g : String) (c : Value) :
    invLE X (addChildI X g c) := by
  refine ⟨fun g' h => h, fun g' x h => ?_, fun x h => h⟩
  simp only [addChildI]
  split <;> simp_all

theorem invLE_addHostI (X : Inventory) (h : Value) (g : String)
    (port : Option Value) : invLE X (addHostI X h g port) := by
  refine ⟨fun g' hh => hh, fun g' x hh => ?_, fun x hh => ?_⟩
  · simp only [addHostI]
    split <;> simp_all
  · simp only [addHostI]
    split <;> simp_all

theorem invLE_writeVars (isReserved : String → Bool) (excl : Bool) (ah : Value)
    (d : Doc) (X : Inventory) : invLE X (writeVars isReserved excl ah d X) := by
  rw [invLE, writeVars_groups, writeVars_children, writeVars_hosts]
  exact invLE_refl X

theorem invLE_deriveKG (ah : Value) (hv : String → Option Value)
    (ks : List String) : ∀ (X : Inventory),
    invLE X (deriveKG ah hv ks X).state := by
  induction ks with
  | nil => intro X; exact invLE_refl X
  | cons k rest ih =>
      intro X
      match hval : hv k with
      | none => simpa [deriveKG, hval] using ih X
      | some (.str s) =>
          simp only [deriveKG, hval]
          exact invLE_trans
            (invLE_trans (invLE_addGroupI X (k ++ ":" ++ s))
              (invLE_addChildI _ (k ++ ":" ++ s) ah)) (ih _)
      | some (.int n) => simp [deriveKG, hval, Res.state, invLE_refl]
      | some (.vdoc dv) => simp [deriveKG, hval, Res.state, invLE_refl]

theorem deriveKG_ok_derives (ah : Value) (hv : String → Option Value)
    (ks : List String) : ∀ (X X' : Inventory),
    deriveKG ah hv ks X = .ok X' →
    ∀ k ∈ ks, ∀ v, hv k = some v →
      ∃ s, v = .str s ∧ X'.groups (k ++ ":" ++ s) = true ∧
        X'.children (k ++ ":" ++ s) ah = true := by
  induction ks with
  | nil => intro X X' _ k hk; exact absurd hk (List.not_mem_nil k)
  | cons k0 rest ih =>
      intro X X' hok k hk v hval
      match h0 : hv k0 with
      | none =>
          rw [deriveKG, h0] at hok
          rcases List.mem_cons.mp hk with rfl | hk'
          · rw [h0] at hval; cases hval
          · exact ih _ _ hok k hk' v hval
      | some (.str s0) =>
          rw [deriveKG, h0] at hok
          replace hok : deriveKG ah hv rest
              (addChildI (addGroupI X (k0 ++ ":" ++ s0)) (k0 ++ ":" ++ s0) ah) =
              .ok X' := hok
          rcases List.mem_cons.mp hk with rfl | hk'
          · rw [h0] at hval
            injection hval with hval
            refine ⟨s0, hval.symm, ?_, ?_⟩
            · have hle := invLE_deriveKG ah hv rest
                (addChildI (addGroupI X (k ++ ":" ++ s0)) (k ++ ":" ++ s0) ah)
              rw [hok] at hle
              refine hle.1 _ ?_
              simp [addChildI, addGroupI]
            · have hle := invLE_deriveKG ah hv rest
                (addChildI (addGroupI X (k ++ ":" ++ s0)) (k ++ ":" ++ s0) ah)
              rw [hok] at hle
              refine hle.2.1 _ _ ?_
              simp [addChildI]
          · exact ih _ _ hok k hk' v hval
      | some (.int n) => rw [deriveKG, h0] at hok; cases hok
      | some (.vdoc dv) => rw [deriveKG, h0] at hok; cases hok

theorem deriveKG_rel (ah : Value) (hv : String → Option Value) (S : Inventory)
    (ks : List String) : ∀ (X : Inventory),
    X.groups = S.groups → X.children = S.children →
    (∀ k ∈ ks, ∀ v, hv k = some v →
      ∃ s, v = .str s ∧ S.groups (k ++ ":" ++ s) = true ∧
        S.children (k ++ ":" ++ s) ah = true) →
    ∃ X', deriveKG ah hv ks X = .ok X' ∧ X'.groups = S.groups ∧
      X'.children = S.children ∧ X'.hosts = X.hosts ∧
      X'.hostPort = X.hostPort ∧ X'.hostVars = X.hostVars := by
  induction ks with
  | nil =>
      intro X hg hc _
      exact ⟨X, rfl, hg, hc, rfl, rfl, rfl⟩
  | cons k0 rest ih =>
      intro X hg hc hder
      match h0 : hv k0 with
      | none =>
          rw [deriveKG, h0]
          exact ih X hg hc (fun k hk => hder k (List.mem_cons_of_mem _ hk))
      | some v0 =>
          obtain ⟨s0, hs0, hgrp, hchl⟩ :=
            hder k0 (List.mem_cons_self k0 rest) v0 h0
          subst hs0
          rw [deriveKG, h0]
          have hg1 : (addChildI (addGroupI X (k0 ++ ":" ++ s0))
              (k0 ++ ":" ++ s0) ah).groups = S.groups := by
            funext x
            simp only [addChildI, addGroupI]
            split
            · next heq => rw [heq, hgrp]
            · rw [hg]
          have hc1 : (addChildI (addGroupI X (k0 ++ ":" ++ s0))
              (k0 ++ ":" ++ s0) ah).children = S.children := by
            funext g' h'
            simp only [addChildI, addGroupI]
            split
            · next heq => rw [heq.1, heq.2, hchl]
            · rw [hc]
          obtain ⟨X', hX', hg', hc', hh', hp', hv'⟩ :=
            ih _ hg1 hc1 (fun k hk => hder k (List.mem_cons_of_mem _ hk))
          exact ⟨X', hX', hg', hc',
            by rw [hh']; rfl, by rw [hp']; rfl, by rw [hv']; rfl⟩

theorem Res_state_ok {α : Type} {r : Res α} {a : α} (h : r = .ok a) :
    r.state = a := by rw [h]; rfl

theorem invLE_docCont (isReserved : String → Bool) (excl : Bool)
    (kgOpt : Option (List String)) (ah : Value) (d : Doc) (inv1 : Inventory) :
    invLE inv1 (docCont isReserved excl kgOpt ah d inv1).state := by
  match kgOpt with
  | none =>
      simpa [docCont, Res.state] using invLE_writeVars isReserved excl ah d inv1
  | some ks =>
      simp only [docCont]
      exact invLE_trans (invLE_writeVars isReserved excl ah d inv1)
        (invLE_deriveKG _ _ ks _)

theorem invLE_invDocStep (isReserved : String → Bool) (excl : Bool)
    (kgOpt : Option (List String)) (gname : String) (d : Doc) (inv : Inventory) :
    invLE inv (invDocStep isReserved excl kgOpt gname d inv).state := by
  rw [invDocStep]
  match h1 : lookupD d "ansible_port" with
  | some p0 =>
      match h2 : lookupD d "ansible_host" with
      | none => exact invLE_refl inv
      | some ah =>
          match h3 : lookupD d "port" with
          | none => exact invLE_refl inv
          | some p =>
              exact invLE_trans (invLE_addHostI inv ah gname (some p))
                (invLE_docCont _ _ _ _ _ _)
  | none =>
      match h2 : lookupD d "ansible_host" with
      | none => exact invLE_refl inv
      | some ah =>
          exact invLE_trans (invLE_addHostI inv ah gname none)
            (invLE_docCont _ _ _ _ _ _)

theorem invDocStep_err_no_ah (isReserved : String → Bool) (excl : Bool)
    (kgOpt : Option (List String)) (gname : String) (d : Doc) (inv : Inventory)
    (h : lookupD d "ansible_host" = none) :
    invDocStep isReserved excl kgOpt gname d inv =
      .err (.keyError "ansible_host") inv := by
  rw [invDocStep]
  match h1 : lookupD d "ansible_port" with
  | some p0 => rw [h]
  | none => rw [h]

theorem invDocStep_ok_inversion (isReserved : String → Bool) (excl : Bool)
    (kgOpt : Option (List String)) (gname : String) (d : Doc)
    (inv X' : Inventory)
    (h : invDocStep isReserved excl kgOpt gname d inv = .ok X') :
    ∃ ah portOpt, lookupD d "ansible_host" = some ah ∧
      docCont isReserved excl kgOpt ah d (addHostI inv ah gname portOpt) =
        .ok X' := by
  rw [invDocStep] at h
  match h1 : lookupD d "ansible_port" with
  | some p0 =>
      rw [h1] at h
      match h2 : lookupD d "ansible_host" with
      | none => rw [h2] at h; cases h
      | some ah =>
          rw [h2] at h
          match h3 : lookupD d "port" with
          | none => rw [h3] at h; cases h
          | some p => rw [h3] at h; exact ⟨ah, some p, rfl, h⟩
  | none =>
      rw [h1] at h
      match h2 : lookupD d "ansible_host" with
      | none => rw [h2] at h; cases h
      | some ah => rw [h2] at h; exact ⟨ah, none, rfl, h⟩

theorem docCont_ok_vars (isReserved : String → Bool) (excl : Bool)
    (kgOpt : Option (List String)) (ah : Value) (d : Doc)
    (inv1 X' : Inventory)
    (h : docCont isReserved excl kgOpt ah d inv1 = .ok X') :
    X'.hostVars = (writeVars isReserved excl ah d inv1).hostVars := by
  match kgOpt with
  | none =>
      simp only [docCont] at h
      injection h with h
      rw [← h]
  | some ks =>
      simp only [docCont] at h
      have := deriveKG_state_vars ah
        ((writeVars isReserved excl ah d inv1).hostVars ah) ks
        (writeVars isReserved excl ah d inv1)
      rwa [Res_state_ok h] at this

theorem invDocStep_vars_char (isReserved : String → Bool) (excl : Bool)
    (kgOpt : Option (List String)) (gname : String) (d : Doc)
    (inv X' : Inventory) (ah : Value)
    (hok : invDocStep isReserved excl kgOpt gname d inv = .ok X')
    (hah : lookupD d "ansible_host" = some ah) (hnd : keysNodup d) :
    (∀ k, X'.hostVars ah k =
      if keepVar isReserved excl k ∧ (lookupD d k).isSome then lookupD d k
      else inv.hostVars ah k) ∧
    (∀ h, h ≠ ah → ∀ k, X'.hostVars h k = inv.hostVars h k) := by
  obtain ⟨ah', portOpt, hah', hcont⟩ :=
    invDocStep_ok_inversion _ _ _ _ _ _ _ hok
  rw [hah] at hah'
  injection hah' with hah'
  subst hah'
  have hvars := docCont_ok_vars _ _ _ _ _ _ _ hcont
  constructor
  · intro k
    rw [hvars, writeVars_vars_char _ _ _ _ hnd]
    have : (addHostI inv ah gname portOpt).hostVars = inv.hostVars := by
      cases portOpt <;> rfl
    rw [this]
  · intro h hne k
    rw [hvars, writeVars_vars_other _ _ _ _ _ _ hne]
    cases portOpt <;> rfl

theorem DerOK_mono {ks : List String} {S S' : Inventory}
    {vars : Value → String → Option Value}
    (h : DerOK ks S vars) (hle : invLE S S') : DerOK ks S' vars := by
  intro x k v hk hval
  obtain ⟨s, rfl, hg, hc⟩ := h x k v hk hval
  exact ⟨s, rfl, hle.1 _ hg, hle.2.1 _ _ hc⟩

theorem DerOK_addGroupI {ks : List String} {X : Inventory} (g : String)
    (h : DerOK ks X X.hostVars) :
    DerOK ks (addGroupI X g) (addGroupI X g).hostVars := by
  have hv : (addGroupI X g).hostVars = X.hostVars := rfl
  rw [hv]
  exact DerOK_mono h (invLE_addGroupI X g)

theorem addHostI_hostVars (inv : Inventory) (ah : Value) (gname : String)
    (portOpt : Option Value) :
    (addHostI inv ah gname portOpt).hostVars = inv.hostVars := by
  cases portOpt <;> rfl

theorem DerOK_invDocStep (isReserved : String → Bool) (excl : Bool)
    (ks : List String) (gname : String) (d : Doc) (X X' : Inventory)
    (hQ : DerOK ks X X.hostVars)
    (hok : invDocStep isReserved excl (some ks) gname d X = .ok X') :
    DerOK ks X' X'.hostVars := by
  obtain ⟨ah, portOpt, hah, hcont⟩ :=
    invDocStep_ok_inversion _ _ _ _ _ _ _ hok
  simp only [docCont] at hcont
  have hvars : X'.hostVars =
      (writeVars isReserved excl ah d (addHostI X ah gname portOpt)).hostVars := by
    have := deriveKG_state_vars ah
      ((writeVars isReserved excl ah d (addHostI X ah gname portOpt)).hostVars ah)
      ks (writeVars isReserved excl ah d (addHostI X ah gname portOpt))
    rwa [Res_state_ok hcont] at this
  have hle : invLE X X' := by
    have h1 := invLE_addHostI X ah gname portOpt
    have h2 := invLE_writeVars isReserved excl ah d (addHostI X ah gname portOpt)
    have h3 := invLE_deriveKG ah
      ((writeVars isReserved excl ah d (addHostI X ah gname portOpt)).hostVars ah)
      ks (writeVars isReserved excl ah d (addHostI X ah gname portOpt))
    rw [Res_state_ok hcont] at h3
    exact invLE_trans h1 (invLE_trans h2 h3)
  intro x k v hk hval
  rw [hvars] at hval
  by_cases hx : x = ah
  · subst hx
    exact deriveKG_ok_derives _ _ ks _ _ hcont k hk v hval
  · rw [writeVars_vars_other _ _ _ _ _ _ hx, addHostI_hostVars] at hval
    obtain ⟨s, rfl, hg, hc⟩ := hQ x k v hk hval
    exact ⟨s, rfl, hle.1 _ hg, hle.2.1 _ _ hc⟩

theorem applyScript_append (isReserved : String → Bool) (excl : Bool)
    (kgOpt : Option (List String)) (a : List Step) : ∀ (b : List Step) (X : Inventory),
    applyScript isReserved excl kgOpt (a ++ b) X =
      match applyScript isReserved excl kgOpt a X with
      | .ok Y => applyScript isReserved excl kgOpt b Y
      | .err e Y => .err e Y := by
  induction a with
  | nil => intro b X; rfl
  | cons st rest ih =>
      intro b X
      match st with
      | .grp g =>
          simp only [List.cons_append, applyScript]
          exact ih b (addGroupI X g)
      | .doc g d =>
          simp only [List.cons_append, applyScript]
          match invDocStep isReserved excl kgOpt g d X with
          | .ok inv' => exact ih b inv'
          | .err e inv' => rfl

theorem invLE_applyScript (isReserved : String → Bool) (excl : Bool)
    (kgOpt : Option (List String)) (steps : List Step) : ∀ (X : Inventory),
    invLE X (applyScript isReserved excl kgOpt steps X).state := by
  induction steps with
  | nil => intro X; exact invLE_refl X
  | cons st rest ih =>
      intro X
      match st with
      | .grp g =>
          simp only [applyScript]
          exact invLE_trans (invLE_addGroupI X g) (ih _)
      | .doc g d =>
          simp only [applyScript]
          have hstep := invLE_invDocStep isReserved excl kgOpt g d X
          match hs : invDocStep isReserved excl kgOpt g d X with
          | .ok inv' =>
              rw [hs] at hstep
              exact invLE_trans hstep (ih inv')
          | .err e inv' =>
              rw [hs] at hstep
              exact hstep

theorem DerOK_applyScript (isReserved : String → Bool) (excl : Bool)
    (ks : List String) (steps : List Step) : ∀ (X Y : Inventory),
    DerOK ks X X.hostVars →
    applyScript isReserved excl (some ks) steps X = .ok Y →
    DerOK ks Y Y.hostVars := by
  induction steps with
  | nil =>
      intro X Y hQ hok
      injection hok with hok
      rwa [← hok]
  | cons st rest ih =>
      intro X Y hQ hok
      match st with
      | .grp g =>
          simp only [applyScript] at hok
          exact ih _ _ (DerOK_addGroupI g hQ) hok
      | .doc g d =>
          simp only [applyScript] at hok
          match hs : invDocStep isReserved excl (some ks) g d X with
          | .ok inv' =>
              rw [hs] at hok
              exact ih _ _ (DerOK_invDocStep _ _ _ _ _ _ _ hQ hs) hok
          | .err e inv' => rw [hs] at hok; cases hok

theorem runDocs_script (isReserved : String → Bool) (excl : Bool)
    (kgOpt : Option (List String)) (gname : String) (docs : List Doc) :
    ∀ st : St, mapInv (runDocs isReserved excl kgOpt gname docs st) =
      applyScript isReserved excl kgOpt (docs.map (Step.doc gname)) st.inv := by
  induction docs with
  | nil => intro st; rfl
  | cons d rest ih =>
      intro st
      simp only [runDocs, List.map, applyScript]
      match hs : invDocStep isReserved excl kgOpt gname d st.inv with
      | .ok inv' => exact ih { st with inv := inv' }
      | .err e inv' => rfl

theorem runDocs_frame (isReserved : String → Bool) (excl : Bool)
    (kgOpt : Option (List String)) (gname : String) (docs : List Doc) :
    ∀ st : St,
      (runDocs isReserved excl kgOpt gname docs st).state.databases =
        st.databases ∧
      (runDocs isReserved excl kgOpt gname docs st).state.collections =
        st.collections ∧
      (runDocs isReserved excl kgOpt gname docs st).state.trace = st.trace := by
  induction docs with
  | nil => intro st; exact ⟨rfl, rfl, rfl⟩
  | cons d rest ih =>
      intro st
      simp only [runDocs]
      match hs : invDocStep isReserved excl kgOpt gname d st.inv with
      | .ok inv' => exact ih { st with inv := inv' }
      | .err e inv' => exact ⟨rfl, rfl, rfl⟩

theorem runGroups_script (fetch : String → String → Doc → Option Doc → List Doc)
    (isReserved : String → Bool) (excl : Bool) (kgOpt : Option (List String))
    (gs : List GroupSpec) : ∀ st : St,
    mapInv (runGroups fetch isReserved excl kgOpt gs st) =
      applyScript isReserved excl kgOpt
        (scriptAux fetch gs st.databases st.collections) st.inv := by
  induction gs with
  | nil => intro st; rfl
  | cons g rest ih =>
      intro st
      simp only [runGroups, scriptAux, applyScript]
      rw [applyScript_append]
      set docs1 : List Doc :=
        fetch (resolveCollC st.collections (resolveDbC st.databases g.db_name).2
            g.collection_name).2.1
          (resolveCollC st.collections (resolveDbC st.databases g.db_name).2
            g.collection_name).2.2 g.query g.incl with hdocs1
      set st1 : St :=
        { inv := addGroupI st.inv g.group_name
          databases := (resolveDbC st.databases g.db_name).1
          collections := (resolveCollC st.collections
            (resolveDbC st.databases g.db_name).2 g.collection_name).1
          trace :=
            { dbOpens := if (lookupA st.databases g.db_name).isSome then
                st.trace.dbOpens else st.trace.dbOpens ++ [g.db_name]
              collOpens := if (lookupA st.collections g.collection_name).isSome then
                st.trace.collOpens else st.trace.collOpens ++
                  [((resolveDbC st.databases g.db_name).2, g.collection_name)]
              execs := st.trace.execs ++
                [((resolveCollC st.collections (resolveDbC st.databases g.db_name).2
                    g.collection_name).2, g.query, g.incl)] } } with hst1
      have hinv : addGroupI st.inv g.group_name = st1.inv := rfl
      have hdb : st1.databases = (resolveDbC st.databases g.db_name).1 := rfl
      have hcoll : st1.collections = (resolveCollC st.collections
          (resolveDbC st.databases g.db_name).2 g.collection_name).1 := rfl
      have hds := runDocs_script isReserved excl kgOpt g.group_name docs1 st1
      have hfr := runDocs_frame isReserved excl kgOpt g.group_name docs1 st1
      rw [hinv]
      match hr : runDocs isReserved excl kgOpt g.group_name docs1 st1 with
      | .ok st2 =>
          rw [hr] at hds hfr
          simp only [mapInv] at hds
          rw [← hds]
          simp only [mapInv]
          have hdb2 : st2.databases = (resolveDbC st.databases g.db_name).1 :=
            hfr.1.trans hdb
          have hcoll2 : st2.collections = (resolveCollC st.collections
              (resolveDbC st.databases g.db_name).2 g.collection_name).1 :=
            hfr.2.1.trans hcoll
          have hih := ih st2
          rw [hdb2, hcoll2] at hih
          exact hih
      | .err e st2 =>
          rw [hr] at hds
          simp only [mapInv] at hds
          rw [← hds]
          simp only [mapInv]

theorem parseRun_script (fetch : String → String → Doc → Option Doc → List Doc)
    (isReserved : String → Bool) (cfg : Config) (inv0 : Inventory) :
    mapInv (parseRun fetch isReserved cfg inv0) =
      applyScript isReserved (cfg.exclude_reserved.getD true) cfg.keyed_groups
        (scriptOf fetch cfg) inv0 :=
  runGroups_script fetch isReserved (cfg.exclude_reserved.getD true)
    cfg.keyed_groups cfg.query_groups (initSt inv0)

theorem orElse_self {α : Type} (o : Option α) : (o <|> o) = o := by
  cases o <;> rfl

theorem twist_doc_core (isReserved : String → Bool) (excl : Bool)
    (ks : List String) (g : String) (d : Doc) (ah : Value)
    (portOpt : Option Value) (T1 T S1 T1f : Inventory)
    (hcont1 : docCont isReserved excl (some ks) ah d (addHostI T1 ah g portOpt) =
      .ok T1f)
    (hle1 : invLE T1f S1)
    (hD1 : DerOK ks S1 T1.hostVars) (hDS : DerOK ks S1 S1.hostVars)
    (hg : T.groups = S1.groups) (hh : T.hosts = S1.hosts)
    (hc : T.children = S1.children)
    (hv : ∀ h k, T.hostVars h k = (T1.hostVars h k <|> S1.hostVars h k))
    (hp : ∀ h, T.hostPort h = (T1.hostPort h <|> S1.hostPort h)) :
    ∃ Tf, docCont isReserved excl (some ks) ah d (addHostI T ah g portOpt) =
        .ok Tf ∧
      Tf.groups = S1.groups ∧ Tf.hosts = S1.hosts ∧ Tf.children = S1.children ∧
      (∀ h k, Tf.hostVars h k = (T1f.hostVars h k <|> S1.hostVars h k)) ∧
      (∀ h, Tf.hostPort h = (T1f.hostPort h <|> S1.hostPort h)) ∧
      DerOK ks S1 T1f.hostVars := by
  simp only [docCont] at hcont1 ⊢
  have hW1vars : T1f.hostVars =
      (writeVars isReserved excl ah d (addHostI T1 ah g portOpt)).hostVars := by
    have := deriveKG_state_vars ah
      ((writeVars isReserved excl ah d (addHostI T1 ah g portOpt)).hostVars ah) ks
      (writeVars isReserved excl ah d (addHostI T1 ah g portOpt))
    rwa [Res_state_ok hcont1] at this
  have hW1hosts : T1f.hosts =
      (writeVars isReserved excl ah d (addHostI T1 ah g portOpt)).hosts := by
    have := deriveKG_state_hosts ah
      ((writeVars isReserved excl ah d (addHostI T1 ah g portOpt)).hostVars ah) ks
      (writeVars isReserved excl ah d (addHostI T1 ah g portOpt))
    rwa [Res_state_ok hcont1] at this
  have hW1port : T1f.hostPort =
      (writeVars isReserved excl ah d (addHostI T1 ah g portOpt)).hostPort := by
    have := deriveKG_state_hostPort ah
      ((writeVars isReserved excl ah d (addHostI T1 ah g portOpt)).hostVars ah) ks
      (writeVars isReserved excl ah d (addHostI T1 ah g portOpt))
    rwa [Res_state_ok hcont1] at this
  have hleW1 : invLE (writeVars isReserved excl ah d (addHostI T1 ah g portOpt)) T1f := by
    have := invLE_deriveKG ah
      ((writeVars isReserved excl ah d (addHostI T1 ah g portOpt)).hostVars ah) ks
      (writeVars isReserved excl ah d (addHostI T1 ah g portOpt))
    rwa [Res_state_ok hcont1] at this
  have hS1host : S1.hosts ah = true := by
    refine hle1.2.2 ah ?_
    rw [hW1hosts, writeVars_hosts]
    simp [addHostI]
  have hS1child : S1.children g ah = true := by
    refine hle1.2.1 g ah ?_
    refine hleW1.2.1 g ah ?_
    rw [writeVars_children]
    simp [addHostI]
  have hA2hosts : (addHostI T ah g portOpt).hosts = S1.hosts := by
    funext x
    show (if x = ah then true else T.hosts x) = S1.hosts x
    split
    · next heq => rw [heq, hS1host]
    · rw [hh]
  have hA2children : (addHostI T ah g portOpt).children = S1.children := by
    funext g' h'
    show (if g' = g ∧ h' = ah then true else T.children g' h') = S1.children g' h'
    split
    · next heq => rw [heq.1, heq.2, hS1child]
    · rw [hc]
  have hA2groups : (addHostI T ah g portOpt).groups = S1.groups := hg
  have hA2port : ∀ h, (addHostI T ah g portOpt).hostPort h =
      ((addHostI T1 ah g portOpt).hostPort h <|> S1.hostPort h) := by
    intro h
    match portOpt with
    | none => exact hp h
    | some p =>
        show (if h = ah then some p else T.hostPort h) =
          ((if h = ah then some p else T1.hostPort h) <|> S1.hostPort h)
        split
        · rfl
        · exact hp h
  have hA2vars : ∀ h k, (addHostI T ah g portOpt).hostVars h k =
      ((addHostI T1 ah g portOpt).hostVars h k <|> S1.hostVars h k) := by
    rw [addHostI_hostVars, addHostI_hostVars]
    exact hv
  have hW2vars := writeVars_vars_rel isReserved excl ah S1.hostVars d
    (addHostI T ah g portOpt) (addHostI T1 ah g portOpt) hA2vars
  have hder : ∀ k ∈ ks, ∀ v,
      (writeVars isReserved excl ah d (addHostI T ah g portOpt)).hostVars ah k =
        some v →
      ∃ s, v = .str s ∧ S1.groups (k ++ ":" ++ s) = true ∧
        S1.children (k ++ ":" ++ s) ah = true := by
    intro k hk v hval
    rw [hW2vars ah k] at hval
    match hW1 : (writeVars isReserved excl ah d
        (addHostI T1 ah g portOpt)).hostVars ah k with
    | some v' =>
        rw [hW1] at hval
        simp only [Option.some_orElse] at hval
        injection hval with hval
        subst hval
        obtain ⟨s, rfl, hgr, hch⟩ :=
          deriveKG_ok_derives _ _ ks _ _ hcont1 k hk v' hW1
        exact ⟨s, rfl, hle1.1 _ hgr, hle1.2.1 _ _ hch⟩
    | none =>
        rw [hW1] at hval
        simp only [Option.none_orElse] at hval
        exact hDS ah k v hk hval
  obtain ⟨Tf, hTf, hTfg, hTfc, hTfh, hTfp, hTfv⟩ :=
    deriveKG_rel ah ((writeVars isReserved excl ah d
        (addHostI T ah g portOpt)).hostVars ah) S1 ks
      (writeVars isReserved excl ah d (addHostI T ah g portOpt))
      (by rw [writeVars_groups]; exact hA2groups)
      (by rw [writeVars_children]; exact hA2children) hder
  refine ⟨Tf, hTf, hTfg, ?_, hTfc, ?_, ?_, ?_⟩
  · rw [hTfh, writeVars_hosts, hA2hosts]
  · intro h k
    rw [hTfv, hW2vars h k, hW1vars]
  · intro h
    rw [hTfp, writeVars_hostPort, hW1port, writeVars_hostPort]
    exact hA2port h
  · intro x k v hk hval
    rw [hW1vars] at hval
    by_cases hx : x = ah
    · subst hx
      obtain ⟨s, rfl, hgr, hch⟩ :=
        deriveKG_ok_derives _ _ ks _ _ hcont1 k hk v hval
      exact ⟨s, rfl, hle1.1 _ hgr, hle1.2.1 _ _ hch⟩
    · rw [writeVars_vars_other _ _ _ _ _ _ hx, addHostI_hostVars] at hval
      exact hD1 x k v hk hval

theorem applyScript_twice (isReserved : String → Bool) (excl : Bool)
    (ks : List String) (steps : List Step) : ∀ (T1 T S1 : Inventory),
    applyScript isReserved excl (some ks) steps T1 = .ok S1 →
    DerOK ks S1 T1.hostVars → DerOK ks S1 S1.hostVars →
    T.groups = S1.groups → T.hosts = S1.hosts → T.children = S1.children →
    (∀ h k, T.hostVars h k = (T1.hostVars h k <|> S1.hostVars h k)) →
    (∀ h, T.hostPort h = (T1.hostPort h <|> S1.hostPort h)) →
    applyScript isReserved excl (some ks) steps T = .ok S1 := by
  induction steps with
  | nil =>
      intro T1 T S1 hrun hD1 hDS hg hh hc hv hp
      simp only [applyScript] at hrun ⊢
      injection hrun with hrun
      subst hrun
      have hv' : T.hostVars = T1.hostVars := by
        funext h k
        rw [hv h k, orElse_self]
      have hp' : T.hostPort = T1.hostPort := by
        funext h
        rw [hp h, orElse_self]
      rw [Inventory.ext hg hc hh hp' hv']
  | cons step rest ih =>
      intro T1 T S1 hrun hD1 hDS hg hh hc hv hp
      match step with
      | .grp g =>
          simp only [applyScript] at hrun ⊢
          have hS1g : S1.groups g = true := by
            have hle := invLE_applyScript isReserved excl (some ks) rest (addGroupI T1 g)
            rw [Res_state_ok hrun] at hle
            exact hle.1 g (by simp [addGroupI])
          refine ih (addGroupI T1 g) (addGroupI T g) S1 hrun hD1 hDS ?_ hh hc hv hp
          funext x
          show (if x = g then true else T.groups x) = S1.groups x
          split
          · next heq => rw [heq, hS1g]
          · rw [hg]
      | .doc g d =>
          simp only [applyScript] at hrun ⊢
          match hap : lookupD d "ansible_port" with
          | some p0 =>
              match hah : lookupD d "ansible_host" with
              | none =>
                  have hstep : invDocStep isReserved excl (some ks) g d T1 =
                      .err (.keyError "ansible_host") T1 :=
                    invDocStep_err_no_ah _ _ _ _ _ _ hah
                  rw [hstep] at hrun
                  cases hrun
              | some ah =>
                  match hport : lookupD d "port" with
                  | none =>
                      have hstep : invDocStep isReserved excl (some ks) g d T1 =
                          .err (.keyError "port") T1 := by
                        rw [invDocStep, hap, hah, hport]
                      rw [hstep] at hrun
                      cases hrun
                  | some p =>
                      have hstep1 : invDocStep isReserved excl (some ks) g d T1 =
                          docCont isReserved excl (some ks) ah d
                            (addHostI T1 ah g (some p)) := by
                        rw [invDocStep, hap, hah, hport]
                      have hstep2 : invDocStep isReserved excl (some ks) g d T =
                          docCont isReserved excl (some ks) ah d
                            (addHostI T ah g (some p)) := by
                        rw [invDocStep, hap, hah, hport]
                      rw [hstep1] at hrun
                      rw [hstep2]
                      match hc1 : docCont isReserved excl (some ks) ah d
                          (addHostI T1 ah g (some p)) with
                      | .err e i => rw [hc1] at hrun; cases hrun
                      | .ok T1f =>
                          rw [hc1] at hrun
                          have hle1 : invLE T1f S1 := by
                            have := invLE_applyScript isReserved excl (some ks) rest T1f
                            rwa [Res_state_ok hrun] at this
                          obtain ⟨Tf, hTf, hTfg, hTfh, hTfc, hTfv, hTfp, hD1f⟩ :=
                            twist_doc_core isReserved excl ks g d ah (some p)
                              T1 T S1 T1f hc1 hle1 hD1 hDS hg hh hc hv hp
                          rw [hTf]
                          exact ih T1f Tf S1 hrun hD1f hDS hTfg hTfh hTfc hTfv hTfp
          | none =>
              match hah : lookupD d "ansible_host" with
              | none =>
                  have hstep : invDocStep isReserved excl (some ks) g d T1 =
                      .err (.keyError "ansible_host") T1 :=
                    invDocStep_err_no_ah _ _ _ _ _ _ hah
                  rw [hstep] at hrun
                  cases hrun
              | some ah =>
                  have hstep1 : invDocStep isReserved excl (some ks) g d T1 =
                      docCont isReserved excl (some ks) ah d
                        (addHostI T1 ah g none) := by
                    rw [invDocStep, hap, hah]
                  have hstep2 : invDocStep isReserved excl (some ks) g d T =
                      docCont isReserved excl (some ks) ah d
                        (addHostI T ah g none) := by
                    rw [invDocStep, hap, hah]
                  rw [hstep1] at hrun
                  rw [hstep2]
                  match hc1 : docCont isReserved excl (some ks) ah d
                      (addHostI T1 ah g none) with
                  | .err e i => rw [hc1] at hrun; cases hrun
                  | .ok T1f =>
                      rw [hc1] at hrun
                      have hle1 : invLE T1f S1 := by
                        have := invLE_applyScript isReserved excl (some ks) rest T1f
                        rwa [Res_state_ok hrun] at this
                      obtain ⟨Tf, hTf, hTfg, hTfh, hTfc, hTfv, hTfp, hD1f⟩ :=
                        twist_doc_core isReserved excl ks g d ah none
                          T1 T S1 T1f hc1 hle1 hD1 hDS hg hh hc hv hp
                      rw [hTf]
                      exact ih T1f Tf S1 hrun hD1f hDS hTfg hTfh hTfc hTfv hTfp

theorem applyScript_idem (isReserved : String → Bool) (excl : Bool)
    (ks : List String) (steps : List Step) (S1 : Inventory)
    (hrun : applyScript isReserved excl (some ks) steps emptyInv = .ok S1) :
    applyScript isReserved excl (some ks) steps S1 = .ok S1 := by
  have hDS : DerOK ks S1 S1.hostVars :=
    DerOK_applyScript isReserved excl ks steps emptyInv S1
      (fun h k v _ hval => by cases hval) hrun
  refine applyScript_twice isReserved excl ks steps emptyInv S1 S1 hrun
    (fun h k v _ hval => by cases hval) hDS rfl rfl rfl ?_ ?_
  · intro h k
    rfl
  · intro h
    rfl

theorem invDocStep_ok_noport (isReserved : String → Bool) (excl : Bool)
    (g : String) (d : Doc) (X : Inventory) (ah : Value)
    (hap : lookupD d "ansible_port" = none)
    (hah : lookupD d "ansible_host" = some ah) :
    invDocStep isReserved excl none g d X =
      .ok (writeVars isReserved excl ah d (addHostI X ah g none)) := by
  rw [invDocStep, hap, hah]
  exact rfl

theorem invDocStep_ok_child (isReserved : String → Bool) (excl : Bool)
    (kgOpt : Option (List String)) (gname : String) (d : Doc)
    (X X' : Inventory) (ah : Value)
    (hok : invDocStep isReserved excl kgOpt gname d X = .ok X')
    (hah : lookupD d "ansible_host" = some ah) :
    X'.children gname ah = true ∧ X'.hosts ah = true := by
  obtain ⟨ah', portOpt, hah', hcont⟩ :=
    invDocStep_ok_inversion _ _ _ _ _ _ _ hok
  rw [hah] at hah'
  injection hah' with hah'
  subst hah'
  have hle := invLE_docCont isReserved excl kgOpt ah d (addHostI X ah gname portOpt)
  rw [Res_state_ok hcont] at hle
  constructor
  · refine hle.2.1 gname ah ?_
    cases portOpt <;> simp [addHostI]
  · refine hle.2.2 ah ?_
    cases portOpt <;> simp [addHostI]

theorem mapInv_err {r : Res St} {e : Err} {I : Inventory}
    (h : mapInv r = .err e I) : r.errOf = some e ∧ r.state.inv = I := by
  match r with
  | .ok st => simp [mapInv] at h
  | .err e' st =>
      simp only [mapInv] at h
      injection h with h1 h2
      subst h1
      subst h2
      exact ⟨rfl, rfl⟩

theorem mapInv_ok {r : Res St} {I : Inventory}
    (h : mapInv r = .ok I) : ∃ st, r = .ok st ∧ st.inv = I := by
  match r with
  | .ok st =>
      simp only [mapInv] at h
      injection h with h1
      exact ⟨st, rfl, h1⟩
  | .err e' st => simp [mapInv] at h

theorem applyScript_grp_groups (isReserved : String → Bool) (excl : Bool)
    (kgOpt : Option (List String)) (steps : List Step) :
    ∀ (X Y : Inventory) (gname : String),
    applyScript isReserved excl kgOpt steps X = .ok Y →
    Step.grp gname ∈ steps → Y.groups gname = true := by
  induction steps with
  | nil => intro X Y gname _ hmem; cases hmem
  | cons stp rest ih =>
      intro X Y gname h hmem
      rcases List.mem_cons.mp hmem with heq | hmem'
      · rw [← heq] at h
        simp only [applyScript] at h
        have hle := invLE_applyScript isReserved excl kgOpt rest (addGroupI X gname)
        rw [Res_state_ok h] at hle
        exact hle.1 gname (by simp [addGroupI])
      · match stp with
        | .grp g2 =>
            simp only [applyScript] at h
            exact ih _ _ _ h hmem'
        | .doc g2 d =>
            simp only [applyScript] at h
            match hs : invDocStep isReserved excl kgOpt g2 d X with
            | .ok inv' =>
                rw [hs] at h
                exact ih _ _ _ h hmem'
            | .err e i => rw [hs] at h; cases h

theorem scriptAux_mem_grp (fetch : String → String → Doc → Option Doc → List Doc)
    (gs : List GroupSpec) : ∀ dbs colls (g : GroupSpec), g ∈ gs →
    Step.grp g.group_name ∈ scriptAux fetch gs dbs colls := by
  induction gs with
  | nil => intro _ _ g h; cases h
  | cons g0 rest ih =>
      intro dbs colls g h
      rcases List.mem_cons.mp h with heq | h'
      · subst heq
        simp only [scriptAux]
        exact List.mem_cons_self _ _
      · simp only [scriptAux]
        exact List.mem_cons_of_mem _
          (List.mem_append_right _ (ih _ _ _ h'))

theorem nodup_append_singleton {α : Type} {l : List α} {a : α}
    (h : l.Nodup) (ha : a ∉ l) : (l ++ [a]).Nodup := by
  simp [List.nodup_append, h, ha]

theorem cacheInv_step (st : St) (g : GroupSpec) (hci : cacheInv st) :
    ((if (lookupA st.databases g.db_name).isSome then st.trace.dbOpens
        else st.trace.dbOpens ++ [g.db_name]) =
      ((resolveDbC st.databases g.db_name).1).map Prod.fst) ∧
    ((if (lookupA st.collections g.collection_name).isSome then st.trace.collOpens
        else st.trace.collOpens ++
          [((resolveDbC st.databases g.db_name).2, g.collection_name)]).map
        Prod.snd =
      ((resolveCollC st.collections (resolveDbC st.databases g.db_name).2
          g.collection_name).1).map Prod.fst) ∧
    (((resolveDbC st.databases g.db_name).1).map Prod.fst).Nodup ∧
    (((resolveCollC st.collections (resolveDbC st.databases g.db_name).2
        g.collection_name).1).map Prod.fst).Nodup := by
  obtain ⟨h1, h2, h3, h4⟩ := hci
  refine ⟨?_, ?_, ?_, ?_⟩
  · match hdb : lookupA st.databases g.db_name with
    | some hx => simp [resolveDbC, hdb, h1]
    | none =>
        rw [resolveDbC, hdb, setA_of_lookup_none hdb]
        simp [hdb, h1]
  · match hcl : lookupA st.collections g.collection_name with
    | some hx => simp [resolveCollC, hcl, h2]
    | none =>
        rw [resolveCollC, hcl, setA_of_lookup_none hcl]
        simp [hcl, h2]
  · match hdb : lookupA st.databases g.db_name with
    | some hx => simpa [resolveDbC, hdb] using h3
    | none =>
        rw [resolveDbC, hdb, setA_of_lookup_none hdb]
        rw [List.map_append]
        exact nodup_append_singleton h3 (lookupA_none_not_mem hdb)
  · match hcl : lookupA st.collections g.collection_name with
    | some hx => simpa [resolveCollC, hcl] using h4
    | none =>
        rw [resolveCollC, hcl, setA_of_lookup_none hcl]
        rw [List.map_append]
        exact nodup_append_singleton h4 (lookupA_none_not_mem hcl)

theorem runGroups_cacheInv (fetch : String → String → Doc → Option Doc → List Doc)
    (isReserved : String → Bool) (excl : Bool) (kgOpt : Option (List String))
    (gs : List GroupSpec) : ∀ st : St, cacheInv st →
    cacheInv (runGroups fetch isReserved excl kgOpt gs st).state := by
  induction gs with
  | nil => intro st h; exact h
  | cons g rest ih =>
      intro st hci
      simp only [runGroups]
      set docs1 : List Doc :=
        fetch (resolveCollC st.collections (resolveDbC st.databases g.db_name).2
            g.collection_name).2.1
          (resolveCollC st.collections (resolveDbC st.databases g.db_name).2
            g.collection_name).2.2 g.query g.incl with hdocs1
      set st1 : St :=
        { inv := addGroupI st.inv g.group_name
          databases := (resolveDbC st.databases g.db_name).1
          collections := (resolveCollC st.collections
            (resolveDbC st.databases g.db_name).2 g.collection_name).1
          trace :=
            { dbOpens := if (lookupA st.databases g.db_name).isSome then
                st.trace.dbOpens else st.trace.dbOpens ++ [g.db_name]
              collOpens := if (lookupA st.collections g.collection_name).isSome then
                st.trace.collOpens else st.trace.collOpens ++
                  [((resolveDbC st.databases g.db_name).2, g.collection_name)]
              execs := st.trace.execs ++
                [((resolveCollC st.collections (resolveDbC st.databases g.db_name).2
                    g.collection_name).2, g.query, g.incl)] } } with hst1

      have hc1 := cacheInv_step st g hci
      have h1 : cacheInv st1 := ⟨hc1.1.symm ▸ rfl, by
          have := hc1.2.1
          exact this, hc1.2.2.1, hc1.2.2.2⟩
      have hfr := runDocs_frame isReserved excl kgOpt g.group_name docs1 st1
      match hr : runDocs isReserved excl kgOpt g.group_name docs1 st1 with
      | .ok st2 =>
          rw [hr] at hfr
          have hfa : st2.databases = st1.databases := hfr.1
          have hfb : st2.collections = st1.collections := hfr.2.1
          have hfc : st2.trace = st1.trace := hfr.2.2
          have h2 : cacheInv st2 := by
            rw [cacheInv, hfa, hfb, hfc]
            exact h1
          exact ih st2 h2
      | .err e st2 =>
          rw [hr] at hfr
          have hfa : st2.databases = st1.databases := hfr.1
          have hfb : st2.collections = st1.collections := hfr.2.1
          have hfc : st2.trace = st1.trace := hfr.2.2
          show cacheInv st2
          rw [cacheInv, hfa, hfb, hfc]
          exact h1

theorem resolveDbC_keys_grow (dbs : List (String × String)) (name k : String)
    (h : k ∈ dbs.map Prod.fst) : k ∈ ((resolveDbC dbs name).1).map Prod.fst := by
  match hdb : lookupA dbs name with
  | some hx => simpa [resolveDbC, hdb] using h
  | none =>
      rw [resolveDbC, hdb, setA_of_lookup_none hdb, List.map_append]
      exact List.mem_append_left _ h

theorem resolveCollC_keys_grow (colls : List (String × String × String))
    (db name : String) (k : String) (h : k ∈ colls.map Prod.fst) :
    k ∈ ((resolveCollC colls db name).1).map Prod.fst := by
  match hcl : lookupA colls name with
  | some hx => simpa [resolveCollC, hcl] using h
  | none =>
      rw [resolveCollC, hcl, setA_of_lookup_none hcl, List.map_append]
      exact List.mem_append_left _ h

theorem resolveDbC_key_mem (dbs : List (String × String)) (name : String) :
    name ∈ ((resolveDbC dbs name).1).map Prod.fst := by
  match hdb : lookupA dbs name with
  | some hx =>
      rw [resolveDbC, hdb]
      exact lookupA_isSome_mem (by rw [hdb]; rfl)
  | none =>
      rw [resolveDbC, hdb, setA_of_lookup_none hdb, List.map_append]
      exact List.mem_append_right _ (by simp)

theorem resolveCollC_key_mem (colls : List (String × String × String))
    (db name : String) :
    name ∈ ((resolveCollC colls db name).1).map Prod.fst := by
  match hcl : lookupA colls name with
  | some hx =>
      rw [resolveCollC, hcl]
      exact lookupA_isSome_mem (by rw [hcl]; rfl)
  | none =>
      rw [resolveCollC, hcl, setA_of_lookup_none hcl, List.map_append]
      exact List.mem_append_right _ (by simp)

theorem runGroups_caches_grow
    (fetch : String → String → Doc → Option Doc → List Doc)
    (isReserved : String → Bool) (excl : Bool) (kgOpt : Option (List String))
    (gs : List GroupSpec) : ∀ (st st' : St),
    runGroups fetch isReserved excl kgOpt gs st = .ok st' →
    (∀ k, k ∈ st.databases.map Prod.fst → k ∈ st'.databases.map Prod.fst) ∧
    (∀ k, k ∈ st.collections.map Prod.fst → k ∈ st'.collections.map Prod.fst) := by
  induction gs with
  | nil =>
      intro st st' h
      injection h with h
      subst h
      exact ⟨fun _ h => h, fun _ h => h⟩
  | cons g rest ih =>
      intro st st' h
      simp only [runGroups] at h
      set docs1 : List Doc :=
        fetch (resolveCollC st.collections (resolveDbC st.databases g.db_name).2
            g.collection_name).2.1
          (resolveCollC st.collections (resolveDbC st.databases g.db_name).2
            g.collection_name).2.2 g.query g.incl with hdocs1
      set st1 : St :=
        { inv := addGroupI st.inv g.group_name
          databases := (resolveDbC st.databases g.db_name).1
          collections := (resolveCollC st.collections
            (resolveDbC st.databases g.db_name).2 g.collection_name).1
          trace :=
            { dbOpens := if (lookupA st.databases g.db_name).isSome then
                st.trace.dbOpens else st.trace.dbOpens ++ [g.db_name]
              collOpens := if (lookupA st.collections g.collection_name).isSome then
                st.trace.collOpens else st.trace.collOpens ++
                  [((resolveDbC st.databases g.db_name).2, g.collection_name)]
              execs := st.trace.execs ++
                [((resolveCollC st.collections (resolveDbC st.databases g.db_name).2
                    g.collection_name).2, g.query, g.incl)] } } with hst1
      have hfr := runDocs_frame isReserved excl kgOpt g.group_name docs1 st1
      match hr : runDocs isReserved excl kgOpt g.group_name docs1 st1 with
      | .ok st2 =>
          rw [hr] at h hfr
          have hfa : st2.databases = st1.databases := hfr.1
          have hfb : st2.collections = st1.collections := hfr.2.1
          obtain ⟨ga, gb⟩ := ih st2 st' h
          rw [hfa] at ga
          rw [hfb] at gb
          exact ⟨fun k hk => ga k (resolveDbC_keys_grow _ _ _ hk),
            fun k hk => gb k (resolveCollC_keys_grow _ _ _ _ hk)⟩
      | .err e st2 => rw [hr] at h; cases h

theorem runGroups_names (fetch : String → String → Doc → Option Doc → List Doc)
    (isReserved : String → Bool) (excl : Bool) (kgOpt : Option (List String))
    (gs : List GroupSpec) : ∀ (st st' : St),
    runGroups fetch isReserved excl kgOpt gs st = .ok st' →
    ∀ g ∈ gs, g.db_name ∈ st'.databases.map Prod.fst ∧
      g.collection_name ∈ st'.collections.map Prod.fst := by
  induction gs with
  | nil => intro st st' _ g hg; cases hg
  | cons g0 rest ih =>
      intro st st' h g hg
      simp only [runGroups] at h
      set docs1 : List Doc :=
        fetch (resolveCollC st.collections (resolveDbC st.databases g0.db_name).2
            g0.collection_name).2.1
          (resolveCollC st.collections (resolveDbC st.databases g0.db_name).2
            g0.collection_name).2.2 g0.query g0.incl with hdocs1
      set st1 : St :=
        { inv := addGroupI st.inv g0.group_name
          databases := (resolveDbC st.databases g0.db_name).1
          collections := (resolveCollC st.collections
            (resolveDbC st.databases g0.db_name).2 g0.collection_name).1
          trace :=
            { dbOpens := if (lookupA st.databases g0.db_name).isSome then
                st.trace.dbOpens else st.trace.dbOpens ++ [g0.db_name]
              collOpens := if (lookupA st.collections g0.collection_name).isSome then
                st.trace.collOpens else st.trace.collOpens ++
                  [((resolveDbC st.databases g0.db_name).2, g0.collection_name)]
              execs := st.trace.execs ++
                [((resolveCollC st.collections (resolveDbC st.databases g0.db_name).2
                    g0.collection_name).2, g0.query, g0.incl)] } } with hst1
      have hfr := runDocs_frame isReserved excl kgOpt g0.group_name docs1 st1
      match hr : runDocs isReserved excl kgOpt g0.group_name docs1 st1 with
      | .ok st2 =>
          rw [hr] at h hfr
          have hfa : st2.databases = st1.databases := hfr.1
          have hfb : st2.collections = st1.collections := hfr.2.1
          rcases List.mem_cons.mp hg with heq | hg'
          · subst heq
            obtain ⟨ga, gb⟩ := runGroups_caches_grow fetch isReserved excl kgOpt
              rest st2 st' h
            constructor
            · refine ga _ ?_
              rw [hfa]
              exact resolveDbC_key_mem st.databases g.db_name
            · refine gb _ ?_
              rw [hfb]
              exact resolveCollC_key_mem st.collections _ g.collection_name
          · exact ih st2 st' h g hg'
      | .err e st2 => rw [hr] at h; cases h

/-- C1: the claim says that for a `HostDocument` carrying the optional port
field `ansible_port`, the host is registered with that document's specified
port as connection metadata.  The code checks for `ansible_port` but then
reads `host["port"]`: a document with `ansible_port` and no `port` field
aborts the run with `KeyError("port")` instead of registering the host, and
when both fields are present the value attached is the `port` field's
(1000), not `ansible_port`'s (2000).  A document with neither field is
registered without port metadata.  This contradicts the plugin's own
DOCUMENTATION ("port numbers, if specified, should be named ansible_port,
and will be added to the inventory by the plugin"). -/
theorem C1_port_field_bug :
    (parseRun (fun _ _ _ _ =>
        [[("ansible_host", Value.str "h2"), ("ansible_port", Value.int 2000)]])
      (fun _ => false)
      ⟨"cs", none, none, [⟨"g", "db", "c", [], none⟩]⟩ emptyInv).errOf =
      some (.keyError "port") ∧
    (parseRun (fun _ _ _ _ =>
        [[("ansible_host", Value.str "h2"), ("ansible_port", Value.int 2000),
          ("port", Value.int 1000)]])
      (fun _ => false)
      ⟨"cs", none, none, [⟨"g", "db", "c", [], none⟩]⟩ emptyInv).state.inv.hostPort
        (Value.str "h2") = some (Value.int 1000) ∧
    (parseRun (fun _ _ _ _ => [[("ansible_host", Value.str "h1")]])
      (fun _ => false)
      ⟨"cs", none, none, [⟨"g", "db", "c", [], none⟩]⟩ emptyInv).state.inv.hostPort
        (Value.str "h1") = none :=
  ⟨rfl, rfl, rfl⟩

/-- C3, counterexample: the claim says a keyed-group field holding a
non-stringifiable value (here the nested document in field `a`) is skipped
for that host only, the run does not abort, and the remaining keyed groups
(here `b`, holding `"x"`) are still derived.  In the code the concatenation
`key + ":" + host_vars[key]` raises an uncaught `TypeError`: the run aborts
and the group `b:x` is never created. -/
theorem C3_counterexample :
    (parseRun (fun _ _ _ _ =>
        [[("ansible_host", Value.str "h"),
          ("a", Value.vdoc (VDoc.dcons "x" (Value.int 1) VDoc.dnil)),
          ("b", Value.str "x")]])
      (fun _ => false)
      ⟨"cs", none, some ["a", "b"], [⟨"g", "db", "c", [], none⟩]⟩
      emptyInv).errOf = some .typeError ∧
    (parseRun (fun _ _ _ _ =>
        [[("ansible_host", Value.str "h"),
          ("a", Value.vdoc (VDoc.dcons "x" (Value.int 1) VDoc.dnil)),
          ("b", Value.str "x")]])
      (fun _ => false)
      ⟨"cs", none, some ["a", "b"], [⟨"g", "db", "c", [], none⟩]⟩
      emptyInv).state.inv.groups "b:x" = false :=
  ⟨rfl, rfl⟩

/-- C8, counterexample: the claim says a non-string but stringifiable
keyed-group value (here the integer 5 in field `n`) is converted to its
string form, the derived group is `n:5`, and the run proceeds.  The code
performs no conversion: `"n" + ":" + 5` raises `TypeError`, the run aborts
and no group `n:5` exists. -/
theorem C8_counterexample :
    (parseRun (fun _ _ _ _ =>
        [[("ansible_host", Value.str "h"), ("n", Value.int 5)]])
      (fun _ => false)
      ⟨"cs", none, some ["n"], [⟨"g", "db", "c", [], none⟩]⟩
      emptyInv).errOf = some .typeError ∧
    (parseRun (fun _ _ _ _ =>
        [[("ansible_host", Value.str "h"), ("n", Value.int 5)]])
      (fun _ => false)
      ⟨"cs", none, some ["n"], [⟨"g", "db", "c", [], none⟩]⟩
      emptyInv).state.inv.groups "n:5" = false :=
  ⟨rfl, rfl⟩

/-- C3, amended: the keyed-group loop does not skip a non-stringifiable
value — any non-string value for a configured keyed field raises a
`TypeError` that aborts the whole run at that document (see
`C3_counterexample`).  Equivalently, whenever the processing of a document
completes, every configured keyed field visible in the host's variable set
holds a string. -/
theorem C3_amended (isReserved : String → Bool) (excl : Bool) (ks : List String)
    (gname : String) (d : Doc) (X X' : Inventory) (ah : Value) (k : String)
    (v : Value)
    (hok : invDocStep isReserved excl (some ks) gname d X = .ok X')
    (hah : lookupD d "ansible_host" = some ah)
    (hk : k ∈ ks) (hval : X'.hostVars ah k = some v) :
    ∃ s, v = .str s := by
  obtain ⟨ah', portOpt, hah', hcont⟩ :=
    invDocStep_ok_inversion _ _ _ _ _ _ _ hok
  rw [hah] at hah'
  injection hah' with hah'
  subst hah'
  simp only [docCont] at hcont
  have hvars : X'.hostVars =
      (writeVars isReserved excl ah d (addHostI X ah gname portOpt)).hostVars := by
    have := deriveKG_state_vars ah
      ((writeVars isReserved excl ah d (addHostI X ah gname portOpt)).hostVars ah)
      ks (writeVars isReserved excl ah d (addHostI X ah gname portOpt))
    rwa [Res_state_ok hcont] at this
  rw [hvars] at hval
  obtain ⟨s, hs, _, _⟩ := deriveKG_ok_derives _ _ ks _ _ hcont k hk v hval
  exact ⟨s, hs⟩

/-- Witness for `C3_amended` at a concrete document whose keyed field
`osk` holds the string `"lin"`. -/
theorem C3_amended_witness : ∃ s, Value.str "lin" = Value.str s :=
  C3_amended (fun _ => false) true ["osk"] "g"
    [("ansible_host", Value.str "h"), ("osk", Value.str "lin")]
    emptyInv
    ((invDocStep (fun _ => false) true (some ["osk"]) "g"
      [("ansible_host", Value.str "h"), ("osk", Value.str "lin")]
      emptyInv).state)
    (Value.str "h") "osk" (Value.str "lin") rfl rfl (by decide) rfl

/-- C8, amended: no string conversion is performed.  A keyed field whose
value is already a string `s` yields the derived group identifier
`fieldName ++ ":" ++ s`, which exists and contains the host after the
document is processed; any non-string value (for example an integer)
raises `TypeError` and aborts the run instead of being converted (see
`C8_counterexample`). -/
theorem C8_amended (isReserved : String → Bool) (excl : Bool) (ks : List String)
    (gname : String) (d : Doc) (X X' : Inventory) (ah : Value) (k : String)
    (s : String)
    (hok : invDocStep isReserved excl (some ks) gname d X = .ok X')
    (hah : lookupD d "ansible_host" = some ah)
    (hk : k ∈ ks) (hval : X'.hostVars ah k = some (.str s)) :
    X'.groups (k ++ ":" ++ s) = true ∧ X'.children (k ++ ":" ++ s) ah = true := by
  obtain ⟨ah', portOpt, hah', hcont⟩ :=
    invDocStep_ok_inversion _ _ _ _ _ _ _ hok
  rw [hah] at hah'
  injection hah' with hah'
  subst hah'
  simp only [docCont] at hcont
  have hvars : X'.hostVars =
      (writeVars isReserved excl ah d (addHostI X ah gname portOpt)).hostVars := by
    have := deriveKG_state_vars ah
      ((writeVars isReserved excl ah d (addHostI X ah gname portOpt)).hostVars ah)
      ks (writeVars isReserved excl ah d (addHostI X ah gname portOpt))
    rwa [Res_state_ok hcont] at this
  rw [hvars] at hval
  obtain ⟨s', hs, hg, hc⟩ := deriveKG_ok_derives _ _ ks _ _ hcont k hk _ hval
  have : s' = s := by
    injection hs with hs
    exact hs.symm
  rw [← this]
  exact ⟨hg, hc⟩

/-- Witness for `C8_amended`: keyed field `osk` holds `"lin"`, so group
`osk:lin` exists with host `"h"` as child. -/
theorem C8_amended_witness :
    ((invDocStep (fun _ => false) true (some ["osk"]) "g"
      [("ansible_host", Value.str "h"), ("osk", Value.str "lin")]
      emptyInv).state).groups ("osk" ++ ":" ++ "lin") = true ∧
    ((invDocStep (fun _ => false) true (some ["osk"]) "g"
      [("ansible_host", Value.str "h"), ("osk", Value.str "lin")]
      emptyInv).state).children ("osk" ++ ":" ++ "lin") (Value.str "h") = true :=
  C8_amended (fun _ => false) true ["osk"] "g"
    [("ansible_host", Value.str "h"), ("osk", Value.str "lin")]
    emptyInv _ (Value.str "h") "osk" "lin" rfl rfl (by decide) rfl

/-- C2: for every field of a host document, the field becomes a host
variable exactly when its name is not `_id` and not (reserved and
`exclude_reserved` enabled): after a successful single-group run over the
one document `d`, the host's variable for `k` is `d`'s value at `k` when
`keepVar` holds and `k` is present, and absent otherwise.  In particular
with `exclude_reserved = true` no reserved name appears, with
`exclude_reserved = false` reserved fields do appear, and `_id` never
appears. -/
theorem C2_variable_filter (isReserved : String → Bool) (eo : Option Bool)
    (kgo : Option (List String)) (q : Doc) (io : Option Doc) (d : Doc)
    (ah : Value) (st : St)
    (fetch : String → String → Doc → Option Doc → List Doc)
    (hf : fetch "db" "c" q io = [d])
    (hnd : keysNodup d) (hah : lookupD d "ansible_host" = some ah)
    (hok : parseRun fetch isReserved
      ⟨"cs", eo, kgo, [⟨"g", "db", "c", q, io⟩]⟩ emptyInv = .ok st) :
    ∀ k, st.inv.hostVars ah k =
      if keepVar isReserved (eo.getD true) k ∧ (lookupD d k).isSome
      then lookupD d k else none := by
  have hscript : scriptOf fetch ⟨"cs", eo, kgo, [⟨"g", "db", "c", q, io⟩]⟩ =
      [Step.grp "g", Step.doc "g" d] := by
    simp [scriptOf, scriptAux, resolveDbC, resolveCollC, lookupA, setA, hf]
  have hmain := parseRun_script fetch isReserved
    ⟨"cs", eo, kgo, [⟨"g", "db", "c", q, io⟩]⟩ emptyInv
  rw [hok, hscript] at hmain
  simp only [mapInv, applyScript] at hmain
  match hs : invDocStep isReserved (eo.getD true) kgo "g" d
      (addGroupI emptyInv "g") with
  | .err e i =>
      rw [hs] at hmain
      cases hmain
  | .ok inv' =>
      rw [hs] at hmain
      replace hmain : Res.ok st.inv = Res.ok inv' := hmain
      injection hmain with hmain
      have hchar := (invDocStep_vars_char isReserved (eo.getD true) kgo "g" d
        (addGroupI emptyInv "g") inv' ah hs hah hnd).1
      intro k
      rw [hmain, hchar k]
      have hnone : (addGroupI emptyInv "g").hostVars ah k = none := rfl
      rw [hnone]

/-- Witness for `C2_variable_filter`: a document with a reserved field, an
`_id` field and an ordinary field, processed with the default
`exclude_reserved`; only the ordinary field (and the host-identity field)
materialize. -/
theorem C2_variable_filter_witness :
    ((parseRun (fun _ _ _ _ =>
        [[("ansible_host", Value.str "h"), ("ansible_user", Value.str "u"),
          ("_id", Value.str "i"), ("os", Value.str "linux")]])
      (fun n => n == "ansible_user")
      ⟨"cs", none, none, [⟨"g", "db", "c", [], none⟩]⟩
      emptyInv).state.inv.hostVars (Value.str "h") "os" =
        some (Value.str "linux")) ∧
    ((parseRun (fun _ _ _ _ =>
        [[("ansible_host", Value.str "h"), ("ansible_user", Value.str "u"),
          ("_id", Value.str "i"), ("os", Value.str "linux")]])
      (fun n => n == "ansible_user")
      ⟨"cs", none, none, [⟨"g", "db", "c", [], none⟩]⟩
      emptyInv).state.inv.hostVars (Value.str "h") "ansible_user" = none) ∧
    ((parseRun (fun _ _ _ _ =>
        [[("ansible_host", Value.str "h"), ("ansible_user", Value.str "u"),
          ("_id", Value.str "i"), ("os", Value.str "linux")]])
      (fun n => n == "ansible_user")
      ⟨"cs", none, none, [⟨"g", "db", "c", [], none⟩]⟩
      emptyInv).state.inv.hostVars (Value.str "h") "_id" = none) := by
  have h := C2_variable_filter (fun n => n == "ansible_user") none none [] none
    [("ansible_host", Value.str "h"), ("ansible_user", Value.str "u"),
      ("_id", Value.str "i"), ("os", Value.str "linux")]
    (Value.str "h")
    ((parseRun (fun _ _ _ _ =>
        [[("ansible_host", Value.str "h"), ("ansible_user", Value.str "u"),
          ("_id", Value.str "i"), ("os", Value.str "linux")]])
      (fun n => n == "ansible_user")
      ⟨"cs", none, none, [⟨"g", "db", "c", [], none⟩]⟩ emptyInv).state)
    (fun _ _ _ _ =>
        [[("ansible_host", Value.str "h"), ("ansible_user", Value.str "u"),
          ("_id", Value.str "i"), ("os", Value.str "linux")]])
    rfl (by unfold keysNodup; decide) rfl rfl
  refine ⟨?_, ?_, ?_⟩
  · rw [h "os"]
    decide
  · rw [h "ansible_user"]
    decide
  · rw [h "_id"]
    decide

/-- C7: a host identity appearing in the single documents of two groups
(processed in configured order) ends with the union of both documents'
fields after the reserved/`_id` filtering, the second document's value
winning for every colliding field name. -/
theorem C7_last_write_wins (isReserved : String → Bool) (eo : Option Bool)
    (kgo : Option (List String)) (q1 q2 : Doc) (d1 d2 : Doc) (ah : Value)
    (st : St) (fetch : String → String → Doc → Option Doc → List Doc)
    (hf1 : fetch "db" "c1" q1 none = [d1])
    (hf2 : fetch "db" "c2" q2 none = [d2])
    (hnd1 : keysNodup d1) (hnd2 : keysNodup d2)
    (hah1 : lookupD d1 "ansible_host" = some ah)
    (hah2 : lookupD d2 "ansible_host" = some ah)
    (hok : parseRun fetch isReserved
      ⟨"cs", eo, kgo, [⟨"g1", "db", "c1", q1, none⟩,
        ⟨"g2", "db", "c2", q2, none⟩]⟩ emptyInv = .ok st) :
    ∀ k, st.inv.hostVars ah k =
      if keepVar isReserved (eo.getD true) k
      then (lookupD d2 k <|> lookupD d1 k) else none := by
  have hscript : scriptOf fetch ⟨"cs", eo, kgo, [⟨"g1", "db", "c1", q1, none⟩,
      ⟨"g2", "db", "c2", q2, none⟩]⟩ =
      [Step.grp "g1", Step.doc "g1" d1, Step.grp "g2", Step.doc "g2" d2] := by
    simp [scriptOf, scriptAux, resolveDbC, resolveCollC, lookupA, setA, hf1, hf2]
  have hmain := parseRun_script fetch isReserved
    ⟨"cs", eo, kgo, [⟨"g1", "db", "c1", q1, none⟩,
      ⟨"g2", "db", "c2", q2, none⟩]⟩ emptyInv
  rw [hok, hscript] at hmain
  simp only [mapInv, applyScript] at hmain
  match hs1 : invDocStep isReserved (eo.getD true) kgo "g1" d1
      (addGroupI emptyInv "g1") with
  | .err e i => rw [hs1] at hmain; cases hmain
  | .ok X1 =>
      rw [hs1] at hmain
      replace hmain : Res.ok st.inv =
          (match invDocStep isReserved (eo.getD true) kgo "g2" d2
              (addGroupI X1 "g2") with
            | .ok inv' => Res.ok inv'
            | .err e inv' => Res.err e inv') := hmain
      match hs2 : invDocStep isReserved (eo.getD true) kgo "g2" d2
          (addGroupI X1 "g2") with
      | .err e i => rw [hs2] at hmain; cases hmain
      | .ok X2 =>
          rw [hs2] at hmain
          replace hmain : Res.ok st.inv = Res.ok X2 := hmain
          injection hmain with hmain
          have hchar1 := (invDocStep_vars_char isReserved (eo.getD true) kgo
            "g1" d1 (addGroupI emptyInv "g1") X1 ah hs1 hah1 hnd1).1
          have hchar2 := (invDocStep_vars_char isReserved (eo.getD true) kgo
            "g2" d2 (addGroupI X1 "g2") X2 ah hs2 hah2 hnd2).1
          intro k
          rw [hmain, hchar2 k]
          have hX1 : (addGroupI X1 "g2").hostVars ah k = X1.hostVars ah k := rfl
          rw [hX1, hchar1 k]
          have h0 : (addGroupI emptyInv "g1").hostVars ah k = none := rfl
          rw [h0]
          by_cases hkeep : keepVar isReserved (eo.getD true) k = true
          · match h2v : lookupD d2 k with
            | some v => simp [hkeep, h2v]
            | none =>
                match h1v : lookupD d1 k with
                | some w => simp [hkeep, h2v, h1v]
                | none => simp [hkeep, h2v, h1v]
          · simp [hkeep]

/-- Witness for `C7_last_write_wins`: host `h` appears in both groups;
`y` collides (3 wins over 2), `x` survives from the first document, `z`
from the second. -/
theorem C7_last_write_wins_witness :
    ((parseRun (fun _ c _ _ => if c = "c1"
        then [[("ansible_host", Value.str "h"), ("x", Value.int 1),
          ("y", Value.int 2)]]
        else [[("ansible_host", Value.str "h"), ("y", Value.int 3),
          ("z", Value.int 4)]])
      (fun _ => false)
      ⟨"cs", none, none, [⟨"g1", "db", "c1", [], none⟩,
        ⟨"g2", "db", "c2", [], none⟩]⟩
      emptyInv).state.inv.hostVars (Value.str "h") "y" =
        some (Value.int 3)) ∧
    ((parseRun (fun _ c _ _ => if c = "c1"
        then [[("ansible_host", Value.str "h"), ("x", Value.int 1),
          ("y", Value.int 2)]]
        else [[("ansible_host", Value.str "h"), ("y", Value.int 3),
          ("z", Value.int 4)]])
      (fun _ => false)
      ⟨"cs", none, none, [⟨"g1", "db", "c1", [], none⟩,
        ⟨"g2", "db", "c2", [], none⟩]⟩
      emptyInv).state.inv.hostVars (Value.str "h") "x" = some (Value.int 1)) := by
  have h := C7_last_write_wins (fun _ => false) none none [] []
    [("ansible_host", Value.str "h"), ("x", Value.int 1), ("y", Value.int 2)]
    [("ansible_host", Value.str "h"), ("y", Value.int 3), ("z", Value.int 4)]
    (Value.str "h")
    ((parseRun (fun _ c _ _ => if c = "c1"
        then [[("ansible_host", Value.str "h"), ("x", Value.int 1),
          ("y", Value.int 2)]]
        else [[("ansible_host", Value.str "h"), ("y", Value.int 3),
          ("z", Value.int 4)]])
      (fun _ => false)
      ⟨"cs", none, none, [⟨"g1", "db", "c1", [], none⟩,
        ⟨"g2", "db", "c2", [], none⟩]⟩ emptyInv).state)
    (fun _ c _ _ => if c = "c1"
        then [[("ansible_host", Value.str "h"), ("x", Value.int 1),
          ("y", Value.int 2)]]
        else [[("ansible_host", Value.str "h"), ("y", Value.int 3),
          ("z", Value.int 4)]])
    rfl rfl (by unfold keysNodup; decide) (by unfold keysNodup; decide)
    rfl rfl rfl
  constructor
  · rw [h "y"]
    decide
  · rw [h "x"]
    decide

/-- C4: a `HostDocument` without the host-identity field `ansible_host`
aborts the run with `KeyError("ansible_host")` the moment it is processed
(first conjunct, for any document, group and inventory state — no mutation
is made for that document), and the inventory mutations made for groups
processed before it are retained: after the failing two-group run, the
first group still exists and still holds its already-added host (second
conjunct). -/
theorem C4_missing_identity_aborts (isReserved : String → Bool)
    (eo : Option Bool) (q1 q2 : Doc) (d1 dbad : Doc) (ah1 : Value)
    (fetch : String → String → Doc → Option Doc → List Doc)
    (hf1 : fetch "db" "c1" q1 none = [d1])
    (hf2 : fetch "db" "c2" q2 none = [dbad])
    (hd1p : lookupD d1 "ansible_port" = none)
    (hd1h : lookupD d1 "ansible_host" = some ah1)
    (hbad : lookupD dbad "ansible_host" = none) :
    (∀ (excl : Bool) (kgOpt : Option (List String)) (gname : String)
      (d : Doc) (X : Inventory), lookupD d "ansible_host" = none →
      invDocStep isReserved excl kgOpt gname d X =
        .err (.keyError "ansible_host") X) ∧
    ((parseRun fetch isReserved ⟨"cs", eo, none,
        [⟨"g1", "db", "c1", q1, none⟩, ⟨"g2", "db", "c2", q2, none⟩]⟩
        emptyInv).errOf = some (.keyError "ansible_host") ∧
      (parseRun fetch isReserved ⟨"cs", eo, none,
        [⟨"g1", "db", "c1", q1, none⟩, ⟨"g2", "db", "c2", q2, none⟩]⟩
        emptyInv).state.inv.groups "g1" = true ∧
      (parseRun fetch isReserved ⟨"cs", eo, none,
        [⟨"g1", "db", "c1", q1, none⟩, ⟨"g2", "db", "c2", q2, none⟩]⟩
        emptyInv).state.inv.children "g1" ah1 = true) := by
  constructor
  · intro excl kgOpt gname d X hno
    exact invDocStep_err_no_ah isReserved excl kgOpt gname d X hno
  · have hscript : scriptOf fetch ⟨"cs", eo, none,
        [⟨"g1", "db", "c1", q1, none⟩, ⟨"g2", "db", "c2", q2, none⟩]⟩ =
        [Step.grp "g1", Step.doc "g1" d1, Step.grp "g2", Step.doc "g2" dbad] := by
      simp [scriptOf, scriptAux, resolveDbC, resolveCollC, lookupA, setA,
        hf1, hf2]
    have hmain := parseRun_script fetch isReserved ⟨"cs", eo, none,
      [⟨"g1", "db", "c1", q1, none⟩, ⟨"g2", "db", "c2", q2, none⟩]⟩ emptyInv
    rw [hscript] at hmain
    simp only [applyScript] at hmain
    rw [invDocStep_ok_noport isReserved (eo.getD true) "g1" d1
      (addGroupI emptyInv "g1") ah1 hd1p hd1h] at hmain
    replace hmain : mapInv (parseRun fetch isReserved ⟨"cs", eo, none,
        [⟨"g1", "db", "c1", q1, none⟩, ⟨"g2", "db", "c2", q2, none⟩]⟩
        emptyInv) =
      (match invDocStep isReserved (eo.getD true) none "g2" dbad
          (addGroupI (writeVars isReserved (eo.getD true) ah1 d1
            (addHostI (addGroupI emptyInv "g1") ah1 "g1" none)) "g2") with
        | .ok inv' => Res.ok inv'
        | .err e inv' => Res.err e inv') := hmain
    rw [invDocStep_err_no_ah isReserved (eo.getD true) none "g2" dbad
      (addGroupI (writeVars isReserved (eo.getD true) ah1 d1
        (addHostI (addGroupI emptyInv "g1") ah1 "g1" none)) "g2") hbad] at hmain
    replace hmain : mapInv (parseRun fetch isReserved ⟨"cs", eo, none,
        [⟨"g1", "db", "c1", q1, none⟩, ⟨"g2", "db", "c2", q2, none⟩]⟩
        emptyInv) =
      Res.err (.keyError "ansible_host")
        (addGroupI (writeVars isReserved (eo.getD true) ah1 d1
          (addHostI (addGroupI emptyInv "g1") ah1 "g1" none)) "g2") := hmain
    obtain ⟨herr, hstate⟩ := mapInv_err hmain
    refine ⟨herr, ?_, ?_⟩
    · rw [hstate]
      have hne : ¬(("g1" : String) = "g2") := by decide
      show (if ("g1" : String) = "g2" then true
        else (writeVars isReserved (eo.getD true) ah1 d1
          (addHostI (addGroupI emptyInv "g1") ah1 "g1" none)).groups "g1") = true
      rw [if_neg hne, writeVars_groups]
      show (if ("g1" : String) = "g1" then true
        else (addGroupI emptyInv "g1").groups "g1") = true
      simp
    · rw [hstate]
      show (writeVars isReserved (eo.getD true) ah1 d1
        (addHostI (addGroupI emptyInv "g1") ah1 "g1" none)).children "g1" ah1 = true
      rw [writeVars_children]
      simp [addHostI]

/-- Witness for `C4_missing_identity_aborts`: a concrete first document
`{ansible_host: "h1"}` and a second document `{x: 1}` without identity. -/
theorem C4_missing_identity_aborts_witness :
    ((parseRun (fun _ c _ _ => if c = "c1"
        then [[("ansible_host", Value.str "h1")]]
        else [[("x", Value.int 1)]])
      (fun _ => false) ⟨"cs", none, none,
        [⟨"g1", "db", "c1", [], none⟩, ⟨"g2", "db", "c2", [], none⟩]⟩
      emptyInv).errOf = some (.keyError "ansible_host")) ∧
    ((parseRun (fun _ c _ _ => if c = "c1"
        then [[("ansible_host", Value.str "h1")]]
        else [[("x", Value.int 1)]])
      (fun _ => false) ⟨"cs", none, none,
        [⟨"g1", "db", "c1", [], none⟩, ⟨"g2", "db", "c2", [], none⟩]⟩
      emptyInv).state.inv.children "g1" (Value.str "h1") = true) := by
  have h := (C4_missing_identity_aborts (fun _ => false) none [] []
    [("ansible_host", Value.str "h1")] [("x", Value.int 1)] (Value.str "h1")
    (fun _ c _ _ => if c = "c1"
        then [[("ansible_host", Value.str "h1")]]
        else [[("x", Value.int 1)]])
    rfl rfl rfl rfl rfl).2
  exact ⟨h.1, h.2.2⟩

/-- C5: within one run each database name and each collection name is
resolved to a fresh handle at most once (the open-traces are duplicate
free), and on a completed run each configured group's database name and
collection name was opened exactly once — a second spec naming the same
database or collection reuses the cached handle. -/
theorem C5_resolution_once (fetch : String → String → Doc → Option Doc → List Doc)
    (isReserved : String → Bool) (cfg : Config) (inv0 : Inventory) :
    ((parseRun fetch isReserved cfg inv0).state.trace.dbOpens).Nodup ∧
    (((parseRun fetch isReserved cfg inv0).state.trace.collOpens).map
      Prod.snd).Nodup ∧
    (∀ st, parseRun fetch isReserved cfg inv0 = .ok st →
      ∀ g ∈ cfg.query_groups,
        st.trace.dbOpens.count g.db_name = 1 ∧
        (st.trace.collOpens.map Prod.snd).count g.collection_name = 1) := by
  have hpp : parseRun fetch isReserved cfg inv0 =
      runGroups fetch isReserved (cfg.exclude_reserved.getD true)
        cfg.keyed_groups cfg.query_groups (initSt inv0) := rfl
  have hci0 : cacheInv (initSt inv0) := ⟨rfl, rfl, List.nodup_nil, List.nodup_nil⟩
  have hci := runGroups_cacheInv fetch isReserved (cfg.exclude_reserved.getD true)
    cfg.keyed_groups cfg.query_groups (initSt inv0) hci0
  refine ⟨?_, ?_, ?_⟩
  · rw [hpp, hci.1]
    exact hci.2.2.1
  · rw [hpp, hci.2.1]
    exact hci.2.2.2
  · intro st hok g hg
    rw [hpp] at hok
    have hnames := runGroups_names fetch isReserved
      (cfg.exclude_reserved.getD true) cfg.keyed_groups cfg.query_groups
      (initSt inv0) st hok g hg
    rw [Res_state_ok hok] at hci
    constructor
    · rw [hci.1]
      exact List.count_eq_one_of_mem hci.2.2.1 hnames.1
    · rw [hci.2.1]
      exact List.count_eq_one_of_mem hci.2.2.2 hnames.2

/-- Witness for `C5_resolution_once`: two group specs naming the same
database and the same collection; each is opened exactly once. -/
theorem C5_resolution_once_witness :
    ((parseRun (fun _ _ _ _ => []) (fun _ => false)
      ⟨"cs", none, none, [⟨"g1", "db", "c", [], none⟩,
        ⟨"g2", "db", "c", [], none⟩]⟩
      emptyInv).state.trace.dbOpens).Nodup ∧
    ((parseRun (fun _ _ _ _ => []) (fun _ => false)
      ⟨"cs", none, none, [⟨"g1", "db", "c", [], none⟩,
        ⟨"g2", "db", "c", [], none⟩]⟩
      emptyInv).state.trace.dbOpens.count "db" = 1 ∧
    ((parseRun (fun _ _ _ _ => []) (fun _ => false)
      ⟨"cs", none, none, [⟨"g1", "db", "c", [], none⟩,
        ⟨"g2", "db", "c", [], none⟩]⟩
      emptyInv).state.trace.collOpens.map Prod.snd).count "c" = 1) := by
  have h := C5_resolution_once (fun _ _ _ _ => []) (fun _ => false)
    ⟨"cs", none, none, [⟨"g1", "db", "c", [], none⟩,
      ⟨"g2", "db", "c", [], none⟩]⟩ emptyInv
  refine ⟨h.1, ?_, ?_⟩
  · exact (h.2.2 _ rfl ⟨"g1", "db", "c", [], none⟩ (by decide)).1
  · exact (h.2.2 _ rfl ⟨"g2", "db", "c", [], none⟩ (by decide)).2

/-- C10: `add_group` runs at the top of the per-group loop, before the
query result is consumed, so after a successful run every configured
group name exists in the inventory — also when its query returned zero
documents. -/
theorem C10_configured_groups_exist
    (fetch : String → String → Doc → Option Doc → List Doc)
    (isReserved : String → Bool) (cfg : Config) (inv0 : Inventory) (st : St)
    (hok : parseRun fetch isReserved cfg inv0 = .ok st) :
    ∀ g ∈ cfg.query_groups, st.inv.groups g.group_name = true := by
  intro g hg
  have hmain := parseRun_script fetch isReserved cfg inv0
  rw [hok] at hmain
  simp only [mapInv] at hmain
  exact applyScript_grp_groups isReserved (cfg.exclude_reserved.getD true)
    cfg.keyed_groups (scriptOf fetch cfg) inv0 st.inv g.group_name hmain.symm
    (scriptAux_mem_grp fetch cfg.query_groups [] [] g hg)

/-- Witness for `C10_configured_groups_exist`: a query returning zero
documents still yields its (empty) group. -/
theorem C10_configured_groups_exist_witness :
    (parseRun (fun _ _ _ _ => []) (fun _ => false)
      ⟨"cs", none, none, [⟨"g", "db", "c", [], none⟩]⟩
      emptyInv).state.inv.groups "g" = true :=
  C10_configured_groups_exist (fun _ _ _ _ => []) (fun _ => false)
    ⟨"cs", none, none, [⟨"g", "db", "c", [], none⟩]⟩ emptyInv
    ((parseRun (fun _ _ _ _ => []) (fun _ => false)
      ⟨"cs", none, none, [⟨"g", "db", "c", [], none⟩]⟩ emptyInv).state)
    rfl ⟨"g", "db", "c", [], none⟩ (by decide)

/-- C9 (implicit): the collection cache is keyed by collection name alone.
For two group specs with the same collection name `c` but different
database names, the second spec's query executes against the handle
`(db1, c)` opened for the first spec's database — not against its own
configured database `db2` — and the cache still maps `c` to `(db1, c)`
after the run. -/
theorem C9_collection_cache_ignores_db
    (fetch : String → String → Doc → Option Doc → List Doc)
    (isReserved : String → Bool) (cs : String) (eo : Option Bool)
    (kgo : Option (List String)) (g1 g2 db1 db2 c : String) (q1 q2 : Doc)
    (inv0 : Inventory) (hdb : db1 ≠ db2) (hf1 : fetch db1 c q1 none = []) :
    (parseRun fetch isReserved ⟨cs, eo, kgo,
      [⟨g1, db1, c, q1, none⟩, ⟨g2, db2, c, q2, none⟩]⟩
      inv0).state.trace.execs =
      [((db1, c), q1, none), ((db1, c), q2, none)] ∧
    lookupA ((parseRun fetch isReserved ⟨cs, eo, kgo,
      [⟨g1, db1, c, q1, none⟩, ⟨g2, db2, c, q2, none⟩]⟩
      inv0).state.collections) c = some (db1, c) ∧
    ((db1, c) : String × String) ≠ (db2, c) := by
  have hstep : parseRun fetch isReserved ⟨cs, eo, kgo,
      [⟨g1, db1, c, q1, none⟩, ⟨g2, db2, c, q2, none⟩]⟩ inv0 =
      (match runDocs isReserved (eo.getD true) kgo g2 (fetch db1 c q2 none)
          { inv := addGroupI (addGroupI inv0 g1) g2
            databases := [(db1, db1), (db2, db2)]
            collections := [(c, (db1, c))]
            trace := { dbOpens := [db1, db2], collOpens := [(db1, c)]
                       execs := [((db1, c), q1, none), ((db1, c), q2, none)] } } with
        | .ok st2 => .ok st2
        | .err e st2 => .err e st2) := by
    simp only [parseRun, runGroups, initSt, resolveDbC, resolveCollC, lookupA,
      setA, runDocs, hf1]
    simp [hdb]
  have hfr := runDocs_frame isReserved (eo.getD true) kgo g2
    (fetch db1 c q2 none)
    { inv := addGroupI (addGroupI inv0 g1) g2
      databases := [(db1, db1), (db2, db2)]
      collections := [(c, (db1, c))]
      trace := { dbOpens := [db1, db2], collOpens := [(db1, c)]
                 execs := [((db1, c), q1, none), ((db1, c), q2, none)] } }
  rw [hstep]
  match hr : runDocs isReserved (eo.getD true) kgo g2 (fetch db1 c q2 none)
      { inv := addGroupI (addGroupI inv0 g1) g2
        databases := [(db1, db1), (db2, db2)]
        collections := [(c, (db1, c))]
        trace := { dbOpens := [db1, db2], collOpens := [(db1, c)]
                   execs := [((db1, c), q1, none), ((db1, c), q2, none)] } } with
  | .ok st2 =>
      rw [hr] at hfr
      have hcol : st2.collections = [(c, (db1, c))] := hfr.2.1
      have ht : st2.trace =
          { dbOpens := [db1, db2], collOpens := [(db1, c)],
            execs := [((db1, c), q1, none), ((db1, c), q2, none)] } := hfr.2.2
      refine ⟨?_, ?_, fun hcon => hdb (congrArg Prod.fst hcon)⟩
      · show st2.trace.execs = _
        rw [ht]
      · show lookupA st2.collections c = some (db1, c)
        rw [hcol]
        simp [lookupA]
  | .err e st2 =>
      rw [hr] at hfr
      have hcol : st2.collections = [(c, (db1, c))] := hfr.2.1
      have ht : st2.trace =
          { dbOpens := [db1, db2], collOpens := [(db1, c)],
            execs := [((db1, c), q1, none), ((db1, c), q2, none)] } := hfr.2.2
      refine ⟨?_, ?_, fun hcon => hdb (congrArg Prod.fst hcon)⟩
      · show st2.trace.execs = _
        rw [ht]
      · show lookupA st2.collections c = some (db1, c)
        rw [hcol]
        simp [lookupA]

/-- Witness for `C9_collection_cache_ignores_db`: two specs with databases
`dbA`, `dbB` and the shared collection name `c`. -/
theorem C9_collection_cache_ignores_db_witness :
    (parseRun (fun _ _ _ _ => []) (fun _ => false)
      ⟨"cs", none, none, [⟨"g1", "dbA", "c", [], none⟩,
        ⟨"g2", "dbB", "c", [], none⟩]⟩
      emptyInv).state.trace.execs =
      [(("dbA", "c"), ([] : Doc), (none : Option Doc)),
        (("dbA", "c"), ([] : Doc), (none : Option Doc))] ∧
    ((("dbA", "c") : String × String) ≠ ("dbB", "c")) := by
  have h := C9_collection_cache_ignores_db (fun _ _ _ _ => []) (fun _ => false)
    "cs" none none "g1" "g2" "dbA" "dbB" "c" [] [] emptyInv (by decide) rfl
  exact ⟨h.1, h.2.2⟩

/-- C6: with `keyed_groups = ["os"]`, every host whose final variable set
holds `os = "linux"` is a child of the group `os:linux`, which exists; and
running the whole pipeline a second time over the inventory the first run
produced succeeds and yields exactly the same inventory graph (all adds are
idempotent, all variable writes repeat the same values). -/
theorem C6_keyed_group_idempotent
    (fetch : String → String → Doc → Option Doc → List Doc)
    (isReserved : String → Bool) (cs : String) (eo : Option Bool)
    (qgs : List GroupSpec) (st : St)
    (hok : parseRun fetch isReserved ⟨cs, eo, some ["os"], qgs⟩ emptyInv =
      .ok st) :
    (∀ h : Value, st.inv.hostVars h "os" = some (.str "linux") →
      st.inv.groups "os:linux" = true ∧
      st.inv.children "os:linux" h = true) ∧
    (∃ st2, parseRun fetch isReserved ⟨cs, eo, some ["os"], qgs⟩ st.inv =
      .ok st2 ∧ st2.inv = st.inv) := by
  have hmain := parseRun_script fetch isReserved ⟨cs, eo, some ["os"], qgs⟩
    emptyInv
  rw [hok] at hmain
  simp only [mapInv] at hmain
  have hrun1 : applyScript isReserved (eo.getD true) (some ["os"])
      (scriptOf fetch ⟨cs, eo, some ["os"], qgs⟩) emptyInv = .ok st.inv :=
    hmain.symm
  constructor
  · have hQ := DerOK_applyScript isReserved (eo.getD true) ["os"]
      (scriptOf fetch ⟨cs, eo, some ["os"], qgs⟩) emptyInv st.inv
      (fun h k v _ hval => by cases hval) hrun1
    intro h hv
    obtain ⟨s, hs, hg, hc⟩ := hQ h "os" (.str "linux")
      (List.mem_singleton.mpr rfl) hv
    injection hs with hs
    subst hs
    exact ⟨hg, hc⟩
  · have hidem := applyScript_idem isReserved (eo.getD true) ["os"]
      (scriptOf fetch ⟨cs, eo, some ["os"], qgs⟩) st.inv hrun1
    have hmain2 := parseRun_script fetch isReserved ⟨cs, eo, some ["os"], qgs⟩
      st.inv
    have hcomb : mapInv (parseRun fetch isReserved ⟨cs, eo, some ["os"], qgs⟩
        st.inv) = .ok st.inv := hmain2.trans hidem
    exact mapInv_ok hcomb

/-- Witness for `C6_keyed_group_idempotent`: one document with
`os = "linux"`; the keyed group exists with the host as child, and the
second run reproduces the same graph. -/
theorem C6_keyed_group_idempotent_witness :
    ((parseRun (fun _ _ _ _ =>
        [[("ansible_host", Value.str "h"), ("os", Value.str "linux")]])
      (fun _ => false)
      ⟨"cs", none, some ["os"], [⟨"g", "db", "c", [], none⟩]⟩
      emptyInv).state.inv.children "os:linux" (Value.str "h") = true) ∧
    (∃ st2, parseRun (fun _ _ _ _ =>
        [[("ansible_host", Value.str "h"), ("os", Value.str "linux")]])
      (fun _ => false)
      ⟨"cs", none, some ["os"], [⟨"g", "db", "c", [], none⟩]⟩
      ((parseRun (fun _ _ _ _ =>
          [[("ansible_host", Value.str "h"), ("os", Value.str "linux")]])
        (fun _ => false)
        ⟨"cs", none, some ["os"], [⟨"g", "db", "c", [], none⟩]⟩
        emptyInv).state.inv) = .ok st2 ∧
      st2.inv = (parseRun (fun _ _ _ _ =>
          [[("ansible_host", Value.str "h"), ("os", Value.str "linux")]])
        (fun _ => false)
        ⟨"cs", none, some ["os"], [⟨"g", "db", "c", [], none⟩]⟩
        emptyInv).state.inv) := by
  have h := C6_keyed_group_idempotent (fun _ _ _ _ =>
      [[("ansible_host", Value.str "h"), ("os", Value.str "linux")]])
    (fun _ => false) "cs" none [⟨"g", "db", "c", [], none⟩]
    ((parseRun (fun _ _ _ _ =>
        [[("ansible_host", Value.str "h"), ("os", Value.str "linux")]])
      (fun _ => false)
      ⟨"cs", none, some ["os"], [⟨"g", "db", "c", [], none⟩]⟩
      emptyInv).state) rfl
  exact ⟨(h.1 (Value.str "h") rfl).2, h.2⟩
